import Mathlib

/-!
# Multi-thread-Sync: semaphore protocols of `main.cpp`

Shallow embedding of the four semaphore protocols of `src/main.cpp`
(readers-writers without starvation, readers-writers with writer priority,
asymmetric dining philosophers, dining philosophers with a footman) and of
the dispatcher `main`.

Every thread function is embedded as a function performing ONE atomic
statement of its body for one thread: the thread's program counter names the
statement it is about to execute, `Semaphore.wait` yields no successor when
no permit is available (the thread is blocked), and a scheduler interleaves
the threads arbitrarily.  `sleep` has no effect on the shared state and is
folded into the statement before it.  All threads of a runner are present
from the start, located at the first statement of their loop body (the first
loop test `0 < 4` succeeds): a thread that `pthread_create` has not started
yet behaves like one that has not yet been scheduled.

The `int` counters `readers1`, `readers2` and `writers2` are integers; they
stay between 0 and 5, so machine overflow plays no role.  Semaphore values
and loop counters are natural numbers.
-/

namespace Sync

/-! ## Shared infrastructure -/

/-- The class `Semaphore` of `main.cpp`: a POSIX semaphore, i.e. a permit count. -/
structure Semaphore where
  sem : Nat
deriving DecidableEq, Repr

/-- `Semaphore::wait` (`sem_wait`): takes one permit; `none` when there is no
permit, in which case the caller stays blocked. -/
def Semaphore.wait (s : Semaphore) : Option Semaphore :=
  if 0 < s.sem then some ⟨s.sem - 1⟩ else none

/-- `Semaphore::signal` (`sem_post`): adds one permit. -/
def Semaphore.signal (s : Semaphore) : Semaphore := ⟨s.sem + 1⟩

/-- Number of worker threads of each role (`NUM_R`, `NUM_W`, `NREAD`, `NWRITE`,
`NUM_PHIL` are all 5). -/
abbrev NUM_PHIL : Nat := 5

/-- Number of iterations of every worker loop (`round < 4`, `turn < 4`, `i < 4`). -/
abbrev ROUNDS : Nat := 4

/-- Local state of a worker thread: the statement it is about to execute and
its loop counter (`round`, `turn` or `i` in the source). -/
structure Task (Pc : Type) where
  pc : Pc
  round : Nat
deriving DecidableEq, Repr

/-- End of a loop body: `++round`, then the test `round < 4` either re-enters
the body at `start` or leaves the loop for `pthread_exit` (`fin`). -/
def Task.next {Pc : Type} (t : Task Pc) (start fin : Pc) : Task Pc :=
  if t.round + 1 < ROUNDS then ⟨start, t.round + 1⟩ else ⟨fin, t.round + 1⟩

/-- Sum of a weight over the five threads of one role. -/
def count {α : Type} (g : α → Nat) (f : Fin 5 → α) : Nat :=
  g (f 0) + g (f 1) + g (f 2) + g (f 3) + g (f 4)

/-- Number of threads of one role that are about to execute statement `p`. -/
def occ {Pc : Type} [DecidableEq Pc] (f : Fin 5 → Task Pc) (p : Pc) : Nat :=
  count (fun t => if t.pc = p then 1 else 0) f

/-- Lines printed by the reader and writer threads. -/
inductive Event where
  /-- Text `Reader <id> reading`. -/
  | reading (id : Nat)
  /-- Text `Writer <id> writing`. -/
  | writing (id : Nat)
deriving DecidableEq, Repr

/-- Recognises the lines `Reader <id> reading`. -/
def Event.isReading : Event → Bool
  | .reading _ => true
  | .writing _ => false

/-- Recognises the lines `Writer <id> writing`. -/
def Event.isWriting : Event → Bool
  | .reading _ => false
  | .writing _ => true

/-- An interleaving transition system: one thread performs one statement. -/
structure System where
  /-- Shared and thread-local state. -/
  State : Type
  /-- Thread identifiers. -/
  Tid : Type
  /-- State when the runner has created its threads. -/
  init : State
  /-- One statement of thread `t`; `none` when the thread is blocked or has exited. -/
  step : State → Tid → Option State

/-- Runs the schedule `sched` (the threads to run, in order) from `s`; `none`
when a scheduled thread is not enabled. -/
def System.run (M : System) (s : M.State) : List M.Tid → Option M.State
  | [] => some s
  | t :: ts => (M.step s t).bind fun s' => M.run s' ts

/-- States reachable from the initial state by some schedule. -/
def System.Reachable (M : System) (s : M.State) : Prop :=
  ∃ sched, M.run M.init sched = some s

/-- State reached from the initial state by the schedule `sched` (the initial
state when the schedule cannot be run). -/
def System.after (M : System) (sched : List M.Tid) : M.State :=
  (M.run M.init sched).getD M.init

/-- Transitions taken when the schedule `sched` is run from `s`: the state
before the step, the thread, the state after the step. -/
def System.transitions (M : System) (s : M.State) :
    List M.Tid → List (M.State × M.Tid × M.State)
  | [] => []
  | t :: ts =>
    match M.step s t with
    | none => []
    | some s' => (s, t, s') :: M.transitions s' ts

/-- Some thread can take a step. -/
def System.Enabled (M : System) (s : M.State) : Prop :=
  ∃ t, (M.step s t).isSome = true

/-! ## Problem 1: readers-writers, no starvation (`reader1`, `writer1`) -/

namespace RW1

/-- Statements of `reader1`. -/
inductive RPc where
  /-- First `r_mutex1.wait()`. -/
  | lockEntry
  /-- Statement `readers1++`. -/
  | incr
  /-- Test `if (readers1 == 1)`. -/
  | testFirst
  /-- Statement `resource1.wait()` of the first reader. -/
  | lockRes
  /-- First `r_mutex1.signal()`. -/
  | unlockEntry
  /-- Statement `printf("Reader %d reading\n")` and `sleep(1)`. -/
  | reading
  /-- Second `r_mutex1.wait()`. -/
  | lockExit
  /-- Statement `readers1--`. -/
  | decr
  /-- Test `if (readers1 == 0)`. -/
  | testLast
  /-- Statement `resource1.signal()` of the last reader. -/
  | unlockRes
  /-- Second `r_mutex1.signal()`, `sleep(1)` and the loop increment. -/
  | unlockExit
  /-- After the loop: `pthread_exit`. -/
  | done
deriving DecidableEq, Repr

/-- Statements of `writer1`. -/
inductive WPc where
  /-- Statement `resource1.wait()`. -/
  | lockRes
  /-- Statement `printf("Writer %d writing\n")` and `sleep(2)`. -/
  | writing
  /-- Statement `resource1.signal()`, `sleep(1)` and the loop increment. -/
  | unlockRes
  /-- After the loop: `pthread_exit`. -/
  | done
deriving DecidableEq, Repr

/-- Globals of problem 1 and the local state of its ten threads. -/
structure State where
  readers1 : Int
  r_mutex1 : Semaphore
  resource1 : Semaphore
  /-- Reader threads; thread `i` was created with `arg = i + 1`. -/
  rd : Fin 5 → Task RPc
  /-- Writer threads; thread `i` was created with `arg = i + 1`. -/
  wr : Fin 5 → Task WPc
  /-- Lines printed so far. -/
  out : List Event

/-- Threads of `run_readers_writers_nostarve`. -/
inductive Tid where
  | reader (i : Fin 5)
  | writer (i : Fin 5)
deriving DecidableEq, Repr

/-- One statement of `reader1` run by reader thread `i` (`reader_id = i + 1`). -/
def reader1 (s : State) (i : Fin 5) : Option State :=
  let t := s.rd i
  match t.pc with
  | .lockEntry =>
    s.r_mutex1.wait.map fun m =>
      { s with r_mutex1 := m, rd := Function.update s.rd i ⟨.incr, t.round⟩ }
  | .incr =>
    some { s with readers1 := s.readers1 + 1, rd := Function.update s.rd i ⟨.testFirst, t.round⟩ }
  | .testFirst =>
    if s.readers1 = 1 then some { s with rd := Function.update s.rd i ⟨.lockRes, t.round⟩ }
    else some { s with rd := Function.update s.rd i ⟨.unlockEntry, t.round⟩ }
  | .lockRes =>
    s.resource1.wait.map fun m =>
      { s with resource1 := m, rd := Function.update s.rd i ⟨.unlockEntry, t.round⟩ }
  | .unlockEntry =>
    some { s with r_mutex1 := s.r_mutex1.signal, rd := Function.update s.rd i ⟨.reading, t.round⟩ }
  | .reading =>
    some { s with out := s.out ++ [Event.reading (i.val + 1)],
                  rd := Function.update s.rd i ⟨.lockExit, t.round⟩ }
  | .lockExit =>
    s.r_mutex1.wait.map fun m =>
      { s with r_mutex1 := m, rd := Function.update s.rd i ⟨.decr, t.round⟩ }
  | .decr =>
    some { s with readers1 := s.readers1 - 1, rd := Function.update s.rd i ⟨.testLast, t.round⟩ }
  | .testLast =>
    if s.readers1 = 0 then some { s with rd := Function.update s.rd i ⟨.unlockRes, t.round⟩ }
    else some { s with rd := Function.update s.rd i ⟨.unlockExit, t.round⟩ }
  | .unlockRes =>
    some { s with resource1 := s.resource1.signal,
                  rd := Function.update s.rd i ⟨.unlockExit, t.round⟩ }
  | .unlockExit =>
    some { s with r_mutex1 := s.r_mutex1.signal,
                  rd := Function.update s.rd i (t.next .lockEntry .done) }
  | .done => none

/-- One statement of `writer1` run by writer thread `i` (`writer_id = i + 1`). -/
def writer1 (s : State) (i : Fin 5) : Option State :=
  let t := s.wr i
  match t.pc with
  | .lockRes =>
    s.resource1.wait.map fun m =>
      { s with resource1 := m, wr := Function.update s.wr i ⟨.writing, t.round⟩ }
  | .writing =>
    some { s with out := s.out ++ [Event.writing (i.val + 1)],
                  wr := Function.update s.wr i ⟨.unlockRes, t.round⟩ }
  | .unlockRes =>
    some { s with resource1 := s.resource1.signal,
                  wr := Function.update s.wr i (t.next .lockRes .done) }
  | .done => none

/-- State set up by the global initialisers and `run_readers_writers_nostarve`. -/
def init : State where
  readers1 := 0
  r_mutex1 := ⟨1⟩
  resource1 := ⟨1⟩
  rd := fun _ => ⟨.lockEntry, 0⟩
  wr := fun _ => ⟨.lockRes, 0⟩
  out := []

/-- The scheduler picks a thread, which runs one statement. -/
def step (s : State) : Tid → Option State
  | .reader i => reader1 s i
  | .writer i => writer1 s i

/-- Problem 1 as a transition system. -/
def sys : System := ⟨State, Tid, init, step⟩

/-- All ten threads have left their loops. -/
def Terminal (s : State) : Prop :=
  (∀ i, (s.rd i).pc = .done) ∧ (∀ i, (s.wr i).pc = .done)

/-- Number of writers in the writing region: after `resource1.wait()`, before
`resource1.signal()`. -/
def writing (s : State) : Nat := occ s.wr .writing + occ s.wr .unlockRes

/-- Number of readers in the reading region: after the `r_mutex1.signal()`
that ends the entry section, before the `r_mutex1.wait()` that begins the
exit section. -/
def readingNow (s : State) : Nat := occ s.rd .reading + occ s.rd .lockExit

/-- Inductive invariant of problem 1 relating semaphores, counter and program
counters. -/
structure Inv (s : State) : Prop where
  mutex : s.r_mutex1.sem + (occ s.rd .incr + occ s.rd .testFirst + occ s.rd .lockRes
    + occ s.rd .unlockEntry + occ s.rd .decr + occ s.rd .testLast + occ s.rd .unlockRes
    + occ s.rd .unlockExit) = 1
  readers : s.readers1 = ((occ s.rd .testFirst + occ s.rd .lockRes + occ s.rd .unlockEntry
    + occ s.rd .reading + occ s.rd .lockExit + occ s.rd .decr : Nat) : Int)
  atLock : occ s.rd .lockRes = 0 ∨ s.readers1 = 1
  atUnlock : occ s.rd .unlockRes = 0 ∨ s.readers1 = 0
  resMany : 2 ≤ s.readers1 → s.resource1.sem + writing s = 0
  resOne : s.readers1 = 1 →
    s.resource1.sem + writing s = occ s.rd .testFirst + occ s.rd .lockRes
  resNone : s.readers1 ≤ 0 →
    s.resource1.sem + writing s + occ s.rd .testLast + occ s.rd .unlockRes = 1

/-- Statements left before a reader thread exits (longest path). -/
def remainingR (t : Task RPc) : Nat :=
  (ROUNDS - 1 - t.round) * 11 +
    match t.pc with
    | .lockEntry => 11 | .incr => 10 | .testFirst => 9 | .lockRes => 8 | .unlockEntry => 7
    | .reading => 6 | .lockExit => 5 | .decr => 4 | .testLast => 3 | .unlockRes => 2
    | .unlockExit => 1 | .done => 0

/-- Statements left before a writer thread exits. -/
def remainingW (t : Task WPc) : Nat :=
  (ROUNDS - 1 - t.round) * 3 +
    match t.pc with
    | .lockRes => 3 | .writing => 2 | .unlockRes => 1 | .done => 0

/-- Statements left before all ten threads have exited. -/
def measure (s : State) : Nat := count remainingR s.rd + count remainingW s.wr

/-- 1 when the reader has already printed its line in the current round. -/
def printedR : RPc → Nat
  | .lockExit | .decr | .testLast | .unlockRes | .unlockExit => 1
  | _ => 0

/-- 1 when the writer has already printed its line in the current round. -/
def printedW : WPc → Nat
  | .unlockRes => 1
  | _ => 0

/-- Lines printed so far by a reader in local state `t`. -/
def linesR (t : Task RPc) : Nat := t.round + printedR t.pc

/-- Lines printed so far by a writer in local state `t`. -/
def linesW (t : Task WPc) : Nat := t.round + printedW t.pc

/-- Invariant relating loop counters, exits and printed lines. -/
structure Log (s : State) : Prop where
  rdRound : ∀ i, (s.rd i).round ≤ ROUNDS ∧ ((s.rd i).pc = .done ↔ (s.rd i).round = ROUNDS)
  wrRound : ∀ i, (s.wr i).round ≤ ROUNDS ∧ ((s.wr i).pc = .done ↔ (s.wr i).round = ROUNDS)
  rdLines : ∀ i : Fin 5,
    s.out.count (Event.reading (i.val + 1)) = linesR (s.rd i)
  wrLines : ∀ i : Fin 5,
    s.out.count (Event.writing (i.val + 1)) = linesW (s.wr i)
  rdTotal : s.out.countP Event.isReading = count linesR s.rd
  wrTotal : s.out.countP Event.isWriting = count linesW s.wr

/-- Recognises the transitions in which writer `i` takes the permit of `resource1`. -/
def tookResource (i : Fin 5) (x : State × Tid × State) : Bool :=
  decide (x.2.1 = Tid.writer i) && decide (x.2.2.resource1.sem + 1 = x.1.resource1.sem)

/-- 1 when the writer is in its writing region: after `resource1.wait()`,
before `resource1.signal()`. -/
def inWriting : WPc → Nat
  | .writing | .unlockRes => 1
  | _ => 0

/-- Invariant relating the transitions taken so far to the writers' loop counters. -/
structure Hist (tr : List (State × Tid × State)) (s : State) : Prop where
  taken : ∀ i, tr.countP (tookResource i) = (s.wr i).round + inWriting (s.wr i).pc

end RW1

/-! ## Problem 2: readers-writers, writer priority (`reader2`, `writer2`) -/

namespace RW2

/-- Statements of `reader2`. -/
inductive RPc where
  /-- Statement `try_read.wait()`. -/
  | lockGate
  /-- First `r_mutex2.wait()`. -/
  | lockEntry
  /-- Statement `readers2++`. -/
  | incr
  /-- Test `if (readers2 == 1)`. -/
  | testFirst
  /-- Statement `resource2.wait()` of the first reader. -/
  | lockRes
  /-- First `r_mutex2.signal()`. -/
  | unlockEntry
  /-- Statement `try_read.signal()`. -/
  | unlockGate
  /-- Statement `printf("Reader %d reading\n")` and `sleep(1)`. -/
  | reading
  /-- Second `r_mutex2.wait()`. -/
  | lockExit
  /-- Statement `readers2--`. -/
  | decr
  /-- Test `if (readers2 == 0)`. -/
  | testLast
  /-- Statement `resource2.signal()` of the last reader. -/
  | unlockRes
  /-- Second `r_mutex2.signal()`, `sleep(1)` and the loop increment. -/
  | unlockExit
  /-- After the loop: `pthread_exit`. -/
  | done
deriving DecidableEq, Repr

/-- Statements of `writer2`. -/
inductive WPc where
  /-- First `w_mutex2.wait()`. -/
  | lockEntry
  /-- Statement `writers2++`. -/
  | incr
  /-- Test `if (writers2 == 1)`. -/
  | testFirst
  /-- Statement `try_read.wait()` of the first writer. -/
  | lockGate
  /-- First `w_mutex2.signal()`. -/
  | unlockEntry
  /-- Statement `resource2.wait()`. -/
  | lockRes
  /-- Statement `printf("Writer %d writing\n")` and `sleep(2)`. -/
  | writing
  /-- Statement `resource2.signal()`. -/
  | unlockRes
  /-- Second `w_mutex2.wait()`. -/
  | lockExit
  /-- Statement `writers2--`. -/
  | decr
  /-- Test `if (writers2 == 0)`. -/
  | testLast
  /-- Statement `try_read.signal()` of the last writer. -/
  | unlockGate
  /-- Second `w_mutex2.signal()`, `sleep(1)` and the loop increment. -/
  | unlockExit
  /-- After the loop: `pthread_exit`. -/
  | done
deriving DecidableEq, Repr

/-- Globals of problem 2 and the local state of its ten threads. -/
structure State where
  readers2 : Int
  writers2 : Int
  r_mutex2 : Semaphore
  w_mutex2 : Semaphore
  try_read : Semaphore
  resource2 : Semaphore
  /-- Reader threads; thread `i` was created with `arg = i + 1`. -/
  rd : Fin 5 → Task RPc
  /-- Writer threads; thread `i` was created with `arg = i + 1`. -/
  wr : Fin 5 → Task WPc
  /-- Lines printed so far. -/
  out : List Event

/-- Threads of `run_rw_writer_priority`. -/
inductive Tid where
  | reader (i : Fin 5)
  | writer (i : Fin 5)
deriving DecidableEq, Repr

/-- One statement of `reader2` run by reader thread `i` (`rid = i + 1`). -/
def reader2 (s : State) (i : Fin 5) : Option State :=
  let t := s.rd i
  match t.pc with
  | .lockGate =>
    s.try_read.wait.map fun m =>
      { s with try_read := m, rd := Function.update s.rd i ⟨.lockEntry, t.round⟩ }
  | .lockEntry =>
    s.r_mutex2.wait.map fun m =>
      { s with r_mutex2 := m, rd := Function.update s.rd i ⟨.incr, t.round⟩ }
  | .incr =>
    some { s with readers2 := s.readers2 + 1, rd := Function.update s.rd i ⟨.testFirst, t.round⟩ }
  | .testFirst =>
    if s.readers2 = 1 then some { s with rd := Function.update s.rd i ⟨.lockRes, t.round⟩ }
    else some { s with rd := Function.update s.rd i ⟨.unlockEntry, t.round⟩ }
  | .lockRes =>
    s.resource2.wait.map fun m =>
      { s with resource2 := m, rd := Function.update s.rd i ⟨.unlockEntry, t.round⟩ }
  | .unlockEntry =>
    some { s with r_mutex2 := s.r_mutex2.signal,
                  rd := Function.update s.rd i ⟨.unlockGate, t.round⟩ }
  | .unlockGate =>
    some { s with try_read := s.try_read.signal, rd := Function.update s.rd i ⟨.reading, t.round⟩ }
  | .reading =>
    some { s with out := s.out ++ [Event.reading (i.val + 1)],
                  rd := Function.update s.rd i ⟨.lockExit, t.round⟩ }
  | .lockExit =>
    s.r_mutex2.wait.map fun m =>
      { s with r_mutex2 := m, rd := Function.update s.rd i ⟨.decr, t.round⟩ }
  | .decr =>
    some { s with readers2 := s.readers2 - 1, rd := Function.update s.rd i ⟨.testLast, t.round⟩ }
  | .testLast =>
    if s.readers2 = 0 then some { s with rd := Function.update s.rd i ⟨.unlockRes, t.round⟩ }
    else some { s with rd := Function.update s.rd i ⟨.unlockExit, t.round⟩ }
  | .unlockRes =>
    some { s with resource2 := s.resource2.signal,
                  rd := Function.update s.rd i ⟨.unlockExit, t.round⟩ }
  | .unlockExit =>
    some { s with r_mutex2 := s.r_mutex2.signal,
                  rd := Function.update s.rd i (t.next .lockGate .done) }
  | .done => none

/-- One statement of `writer2` run by writer thread `i` (`wid = i + 1`). -/
def writer2 (s : State) (i : Fin 5) : Option State :=
  let t := s.wr i
  match t.pc with
  | .lockEntry =>
    s.w_mutex2.wait.map fun m =>
      { s with w_mutex2 := m, wr := Function.update s.wr i ⟨.incr, t.round⟩ }
  | .incr =>
    some { s with writers2 := s.writers2 + 1, wr := Function.update s.wr i ⟨.testFirst, t.round⟩ }
  | .testFirst =>
    if s.writers2 = 1 then some { s with wr := Function.update s.wr i ⟨.lockGate, t.round⟩ }
    else some { s with wr := Function.update s.wr i ⟨.unlockEntry, t.round⟩ }
  | .lockGate =>
    s.try_read.wait.map fun m =>
      { s with try_read := m, wr := Function.update s.wr i ⟨.unlockEntry, t.round⟩ }
  | .unlockEntry =>
    some { s with w_mutex2 := s.w_mutex2.signal, wr := Function.update s.wr i ⟨.lockRes, t.round⟩ }
  | .lockRes =>
    s.resource2.wait.map fun m =>
      { s with resource2 := m, wr := Function.update s.wr i ⟨.writing, t.round⟩ }
  | .writing =>
    some { s with out := s.out ++ [Event.writing (i.val + 1)],
                  wr := Function.update s.wr i ⟨.unlockRes, t.round⟩ }
  | .unlockRes =>
    some { s with resource2 := s.resource2.signal,
                  wr := Function.update s.wr i ⟨.lockExit, t.round⟩ }
  | .lockExit =>
    s.w_mutex2.wait.map fun m =>
      { s with w_mutex2 := m, wr := Function.update s.wr i ⟨.decr, t.round⟩ }
  | .decr =>
    some { s with writers2 := s.writers2 - 1, wr := Function.update s.wr i ⟨.testLast, t.round⟩ }
  | .testLast =>
    if s.writers2 = 0 then some { s with wr := Function.update s.wr i ⟨.unlockGate, t.round⟩ }
    else some { s with wr := Function.update s.wr i ⟨.unlockExit, t.round⟩ }
  | .unlockGate =>
    some { s with try_read := s.try_read.signal,
                  wr := Function.update s.wr i ⟨.unlockExit, t.round⟩ }
  | .unlockExit =>
    some { s with w_mutex2 := s.w_mutex2.signal,
                  wr := Function.update s.wr i (t.next .lockEntry .done) }
  | .done => none

/-- State set up by the global initialisers and `run_rw_writer_priority`. -/
def init : State where
  readers2 := 0
  writers2 := 0
  r_mutex2 := ⟨1⟩
  w_mutex2 := ⟨1⟩
  try_read := ⟨1⟩
  resource2 := ⟨1⟩
  rd := fun _ => ⟨.lockGate, 0⟩
  wr := fun _ => ⟨.lockEntry, 0⟩
  out := []

/-- The scheduler picks a thread, which runs one statement. -/
def step (s : State) : Tid → Option State
  | .reader i => reader2 s i
  | .writer i => writer2 s i

/-- Problem 2 as a transition system. -/
def sys : System := ⟨State, Tid, init, step⟩

/-- All ten threads have left their loops. -/
def Terminal (s : State) : Prop :=
  (∀ i, (s.rd i).pc = .done) ∧ (∀ i, (s.wr i).pc = .done)

/-- Number of writers in the writing region: after `resource2.wait()`, before
`resource2.signal()`. -/
def writing (s : State) : Nat := occ s.wr .writing + occ s.wr .unlockRes

/-- Number of readers in the reading region: after the `r_mutex2.signal()`
that ends the entry section, before the `r_mutex2.wait()` that begins the
exit section. -/
def readingNow (s : State) : Nat :=
  occ s.rd .unlockGate + occ s.rd .reading + occ s.rd .lockExit

/-- Number of readers that hold the admission gate: after their
`try_read.wait()`, before their `try_read.signal()`. -/
def gated (s : State) : Nat :=
  occ s.rd .lockEntry + occ s.rd .incr + occ s.rd .testFirst + occ s.rd .lockRes
    + occ s.rd .unlockEntry + occ s.rd .unlockGate

/-- Inductive invariant of problem 2 relating semaphores, counters and program
counters. -/
structure Inv (s : State) : Prop where
  rMutex : s.r_mutex2.sem + (occ s.rd .incr + occ s.rd .testFirst + occ s.rd .lockRes
    + occ s.rd .unlockEntry + occ s.rd .decr + occ s.rd .testLast + occ s.rd .unlockRes
    + occ s.rd .unlockExit) = 1
  wMutex : s.w_mutex2.sem + (occ s.wr .incr + occ s.wr .testFirst + occ s.wr .lockGate
    + occ s.wr .unlockEntry + occ s.wr .decr + occ s.wr .testLast + occ s.wr .unlockGate
    + occ s.wr .unlockExit) = 1
  readers : s.readers2 = ((occ s.rd .testFirst + occ s.rd .lockRes + occ s.rd .unlockEntry
    + occ s.rd .unlockGate + occ s.rd .reading + occ s.rd .lockExit + occ s.rd .decr : Nat) : Int)
  writers : s.writers2 = ((occ s.wr .testFirst + occ s.wr .lockGate + occ s.wr .unlockEntry
    + occ s.wr .lockRes + occ s.wr .writing + occ s.wr .unlockRes + occ s.wr .lockExit
    + occ s.wr .decr : Nat) : Int)
  rAtLock : occ s.rd .lockRes = 0 ∨ s.readers2 = 1
  rAtUnlock : occ s.rd .unlockRes = 0 ∨ s.readers2 = 0
  wAtLock : occ s.wr .lockGate = 0 ∨ s.writers2 = 1
  wAtUnlock : occ s.wr .unlockGate = 0 ∨ s.writers2 = 0
  resMany : 2 ≤ s.readers2 → s.resource2.sem + writing s = 0
  resOne : s.readers2 = 1 →
    s.resource2.sem + writing s = occ s.rd .testFirst + occ s.rd .lockRes
  resNone : s.readers2 ≤ 0 →
    s.resource2.sem + writing s + occ s.rd .testLast + occ s.rd .unlockRes = 1
  gateMany : 2 ≤ s.writers2 → s.try_read.sem + gated s = 0
  gateOne : s.writers2 = 1 →
    s.try_read.sem + gated s = occ s.wr .testFirst + occ s.wr .lockGate
  gateNone : s.writers2 ≤ 0 →
    s.try_read.sem + gated s + occ s.wr .testLast + occ s.wr .unlockGate = 1

/-- Statements left before a reader thread exits (longest path). -/
def remainingR (t : Task RPc) : Nat :=
  (ROUNDS - 1 - t.round) * 13 +
    match t.pc with
    | .lockGate => 13 | .lockEntry => 12 | .incr => 11 | .testFirst => 10 | .lockRes => 9
    | .unlockEntry => 8 | .unlockGate => 7 | .reading => 6 | .lockExit => 5 | .decr => 4
    | .testLast => 3 | .unlockRes => 2 | .unlockExit => 1 | .done => 0

/-- Statements left before a writer thread exits (longest path). -/
def remainingW (t : Task WPc) : Nat :=
  (ROUNDS - 1 - t.round) * 13 +
    match t.pc with
    | .lockEntry => 13 | .incr => 12 | .testFirst => 11 | .lockGate => 10 | .unlockEntry => 9
    | .lockRes => 8 | .writing => 7 | .unlockRes => 6 | .lockExit => 5 | .decr => 4
    | .testLast => 3 | .unlockGate => 2 | .unlockExit => 1 | .done => 0

/-- Statements left before all ten threads have exited. -/
def measure (s : State) : Nat := count remainingR s.rd + count remainingW s.wr

/-- 1 when the writer has already printed its line in the current turn. -/
def printedW : WPc → Nat
  | .unlockRes | .lockExit | .decr | .testLast | .unlockGate | .unlockExit => 1
  | _ => 0

/-- Lines printed so far by a writer in local state `t`. -/
def linesW (t : Task WPc) : Nat := t.round + printedW t.pc

/-- 1 when the reader has already printed its line in the current round. -/
def printedR : RPc → Nat
  | .lockExit | .decr | .testLast | .unlockRes | .unlockExit => 1
  | _ => 0

/-- Lines printed so far by a reader in local state `t`. -/
def linesR (t : Task RPc) : Nat := t.round + printedR t.pc

/-- Invariant relating loop counters, exits and printed lines. -/
structure Log (s : State) : Prop where
  rdRound : ∀ i, (s.rd i).round ≤ ROUNDS ∧ ((s.rd i).pc = .done ↔ (s.rd i).round = ROUNDS)
  wrRound : ∀ i, (s.wr i).round ≤ ROUNDS ∧ ((s.wr i).pc = .done ↔ (s.wr i).round = ROUNDS)
  rdLines : ∀ i : Fin 5,
    s.out.count (Event.reading (i.val + 1)) = linesR (s.rd i)
  wrLines : ∀ i : Fin 5,
    s.out.count (Event.writing (i.val + 1)) = linesW (s.wr i)
  rdTotal : s.out.countP Event.isReading = count linesR s.rd
  wrTotal : s.out.countP Event.isWriting = count linesW s.wr

/-- Recognises the transitions in which writer `i` takes the permit of `resource2`. -/
def tookResource (i : Fin 5) (x : State × Tid × State) : Bool :=
  decide (x.2.1 = Tid.writer i) && decide (x.2.2.resource2.sem + 1 = x.1.resource2.sem)

/-- 1 when the writer is in its writing region: after `resource2.wait()`,
before `resource2.signal()`. -/
def inWriting : WPc → Nat
  | .writing | .unlockRes => 1
  | _ => 0

/-- 1 when the writer has completed `resource2.wait()` in the current turn. -/
def lockDone : WPc → Nat
  | .writing | .unlockRes | .lockExit | .decr | .testLast | .unlockGate | .unlockExit => 1
  | _ => 0

/-- Invariant relating the transitions taken so far to the writers' loop counters. -/
structure Hist (tr : List (State × Tid × State)) (s : State) : Prop where
  taken : ∀ i, tr.countP (tookResource i) = (s.wr i).round + lockDone (s.wr i).pc

end RW2

/-! ## Problems 3 and 4: dining philosophers -/

/-- Left fork of philosopher `id`: `left = id`. -/
def left (id : Fin 5) : Fin 5 := id

/-- Right fork of philosopher `id`: `right = (id + 1) % NUM_PHIL`. -/
def right (id : Fin 5) : Fin 5 := ⟨(id.val + 1) % NUM_PHIL, Nat.mod_lt _ (by decide)⟩

/-- Sum of a weight over the five philosophers. -/
def countI (g : Fin 5 → Nat) : Nat := g 0 + g 1 + g 2 + g 3 + g 4

namespace DP1

/-- Statements of `philosopher1`. -/
inductive PPc where
  /-- Statement `printf("Philosopher %d is thinking\n")` and `sleep(1)`. -/
  | think
  /-- Test `if (id == 0)`. -/
  | test
  /-- Statement `sticks1[right].wait()` of philosopher 0. -/
  | rightFirst
  /-- Statement `sticks1[left].wait()` of philosopher 0. -/
  | leftSecond
  /-- Statement `sticks1[left].wait()` of the other philosophers. -/
  | leftFirst
  /-- Statement `sticks1[right].wait()` of the other philosophers. -/
  | rightSecond
  /-- Statement `printf("Philosopher %d is eating\n")` and `sleep(2)`. -/
  | eat
  /-- Statement `sticks1[left].signal()`. -/
  | putLeft
  /-- Statement `sticks1[right].signal()`. -/
  | putRight
  /-- Statement `printf("Philosopher %d released forks\n")` and the loop increment. -/
  | report
  /-- After the loop: `pthread_exit`. -/
  | done
deriving DecidableEq, Repr

/-- Globals of problem 3 and the local state of its five threads. -/
structure State where
  sticks1 : Fin 5 → Semaphore
  /-- Philosopher threads; thread `id` was created with `arg = id`. -/
  ph : Fin 5 → Task PPc

/-- One statement of `philosopher1` run by philosopher `id`. -/
def philosopher1 (s : State) (id : Fin 5) : Option State :=
  let t := s.ph id
  match t.pc with
  | .think => some { s with ph := Function.update s.ph id ⟨.test, t.round⟩ }
  | .test =>
    if id.val = 0 then some { s with ph := Function.update s.ph id ⟨.rightFirst, t.round⟩ }
    else some { s with ph := Function.update s.ph id ⟨.leftFirst, t.round⟩ }
  | .rightFirst =>
    (s.sticks1 (right id)).wait.map fun m =>
      { s with sticks1 := Function.update s.sticks1 (right id) m,
               ph := Function.update s.ph id ⟨.leftSecond, t.round⟩ }
  | .leftSecond =>
    (s.sticks1 (left id)).wait.map fun m =>
      { s with sticks1 := Function.update s.sticks1 (left id) m,
               ph := Function.update s.ph id ⟨.eat, t.round⟩ }
  | .leftFirst =>
    (s.sticks1 (left id)).wait.map fun m =>
      { s with sticks1 := Function.update s.sticks1 (left id) m,
               ph := Function.update s.ph id ⟨.rightSecond, t.round⟩ }
  | .rightSecond =>
    (s.sticks1 (right id)).wait.map fun m =>
      { s with sticks1 := Function.update s.sticks1 (right id) m,
               ph := Function.update s.ph id ⟨.eat, t.round⟩ }
  | .eat => some { s with ph := Function.update s.ph id ⟨.putLeft, t.round⟩ }
  | .putLeft =>
    some { s with sticks1 := Function.update s.sticks1 (left id) (s.sticks1 (left id)).signal,
                  ph := Function.update s.ph id ⟨.putRight, t.round⟩ }
  | .putRight =>
    some { s with sticks1 := Function.update s.sticks1 (right id) (s.sticks1 (right id)).signal,
                  ph := Function.update s.ph id ⟨.report, t.round⟩ }
  | .report => some { s with ph := Function.update s.ph id (t.next .think .done) }
  | .done => none

/-- State set up by the global initialisers and `run_dining_phil_asym`. -/
def init : State where
  sticks1 := fun _ => ⟨1⟩
  ph := fun _ => ⟨.think, 0⟩

/-- Problem 3 as a transition system; the threads are the philosophers. -/
def sys : System := ⟨State, Fin 5, init, philosopher1⟩

/-- All five philosophers have left their loops. -/
def Terminal (s : State) : Prop := ∀ id, (s.ph id).pc = .done

/-- 1 when a philosopher at this statement holds its left fork: its
`sticks1[left].wait()` is completed, its `sticks1[left].signal()` is not. -/
def holdsLeft : PPc → Nat
  | .rightSecond | .eat | .putLeft => 1
  | _ => 0

/-- 1 when a philosopher at this statement holds its right fork: its
`sticks1[right].wait()` is completed, its `sticks1[right].signal()` is not. -/
def holdsRight : PPc → Nat
  | .leftSecond | .eat | .putLeft | .putRight => 1
  | _ => 0

/-- 1 when philosopher `id` in local state `t` holds fork `k`. -/
def holds (id : Fin 5) (t : Task PPc) (k : Fin 5) : Nat :=
  (if k = left id then holdsLeft t.pc else 0) + (if k = right id then holdsRight t.pc else 0)

/-- Number of philosophers holding fork `k`. -/
def holders (s : State) (k : Fin 5) : Nat := countI fun id => holds id (s.ph id) k

/-- 1 when the philosopher has left its loop. -/
def finished : PPc → Nat
  | .done => 1
  | _ => 0

/-- Inductive invariant of problem 3. -/
structure Inv (s : State) : Prop where
  forks : ∀ k, (s.sticks1 k).sem + holders s k = 1
  zeroPath : ∀ id, (s.ph id).pc = .rightFirst ∨ (s.ph id).pc = .leftSecond → id = 0
  otherPath : ∀ id, (s.ph id).pc = .leftFirst ∨ (s.ph id).pc = .rightSecond → id ≠ 0

/-- Statements left before the philosopher thread exits. -/
def remaining (t : Task PPc) : Nat :=
  (ROUNDS - 1 - t.round) * 8 +
    match t.pc with
    | .think => 8 | .test => 7 | .rightFirst => 6 | .leftFirst => 6 | .leftSecond => 5
    | .rightSecond => 5 | .eat => 4 | .putLeft => 3 | .putRight => 2 | .report => 1
    | .done => 0

/-- Statements left before all philosopher threads have exited. -/
def measure (s : State) : Nat := count remaining s.ph

/-- Recognises the transitions in which philosopher `id` takes a permit of fork `k`. -/
def tookFork (id k : Fin 5) (x : State × Fin 5 × State) : Bool :=
  decide (x.2.1 = id) && decide ((x.2.2.sticks1 k).sem + 1 = (x.1.sticks1 k).sem)

/-- 1 when the philosopher has completed `sticks1[left].wait()` in the current round. -/
def leftDone : PPc → Nat
  | .rightSecond | .eat | .putLeft | .putRight | .report => 1
  | _ => 0

/-- 1 when the philosopher has completed `sticks1[right].wait()` in the current round. -/
def rightDone : PPc → Nat
  | .leftSecond | .eat | .putLeft | .putRight | .report => 1
  | _ => 0

/-- Invariant relating the transitions taken so far to the loop counters. -/
structure Hist (tr : List (State × Fin 5 × State)) (s : State) : Prop where
  rounds : ∀ id, (s.ph id).round ≤ ROUNDS ∧ ((s.ph id).pc = .done ↔ (s.ph id).round = ROUNDS)
  leftTaken : ∀ id,
    tr.countP (tookFork id (left id)) = (s.ph id).round + leftDone (s.ph id).pc
  rightTaken : ∀ id,
    tr.countP (tookFork id (right id)) = (s.ph id).round + rightDone (s.ph id).pc

end DP1

namespace DP2

/-- Statements of `philosopher2`. -/
inductive PPc where
  /-- Statement `printf("Philosopher %d is thinking\n")` and `sleep(1)`. -/
  | think
  /-- Statement `host.wait()`. -/
  | askHost
  /-- Statement `sticks2[left].wait()`. -/
  | takeLeft
  /-- Statement `sticks2[right].wait()`. -/
  | takeRight
  /-- Statement `printf("Philosopher %d is eating\n")` and `sleep(2)`. -/
  | eat
  /-- Statement `sticks2[left].signal()`. -/
  | putLeft
  /-- Statement `sticks2[right].signal()`. -/
  | putRight
  /-- Statement `host.signal()`. -/
  | leaveHost
  /-- Statement `printf("Philosopher %d put down forks\n")` and the loop increment. -/
  | report
  /-- After the loop: `pthread_exit`. -/
  | done
deriving DecidableEq, Repr

/-- Globals of problem 4 and the local state of its five threads. -/
structure State where
  sticks2 : Fin 5 → Semaphore
  host : Semaphore
  /-- Philosopher threads; thread `id` was created with `arg = id`. -/
  ph : Fin 5 → Task PPc

/-- One statement of `philosopher2` run by philosopher `id`. -/
def philosopher2 (s : State) (id : Fin 5) : Option State :=
  let t := s.ph id
  match t.pc with
  | .think => some { s with ph := Function.update s.ph id ⟨.askHost, t.round⟩ }
  | .askHost =>
    s.host.wait.map fun m =>
      { s with host := m, ph := Function.update s.ph id ⟨.takeLeft, t.round⟩ }
  | .takeLeft =>
    (s.sticks2 (left id)).wait.map fun m =>
      { s with sticks2 := Function.update s.sticks2 (left id) m,
               ph := Function.update s.ph id ⟨.takeRight, t.round⟩ }
  | .takeRight =>
    (s.sticks2 (right id)).wait.map fun m =>
      { s with sticks2 := Function.update s.sticks2 (right id) m,
               ph := Function.update s.ph id ⟨.eat, t.round⟩ }
  | .eat => some { s with ph := Function.update s.ph id ⟨.putLeft, t.round⟩ }
  | .putLeft =>
    some { s with sticks2 := Function.update s.sticks2 (left id) (s.sticks2 (left id)).signal,
                  ph := Function.update s.ph id ⟨.putRight, t.round⟩ }
  | .putRight =>
    some { s with sticks2 := Function.update s.sticks2 (right id) (s.sticks2 (right id)).signal,
                  ph := Function.update s.ph id ⟨.leaveHost, t.round⟩ }
  | .leaveHost =>
    some { s with host := s.host.signal, ph := Function.update s.ph id ⟨.report, t.round⟩ }
  | .report => some { s with ph := Function.update s.ph id (t.next .think .done) }
  | .done => none

/-- State set up by the global initialisers and `run_dining_phil_host`. -/
def init : State where
  sticks2 := fun _ => ⟨1⟩
  host := ⟨4⟩
  ph := fun _ => ⟨.think, 0⟩

/-- Problem 4 as a transition system; the threads are the philosophers. -/
def sys : System := ⟨State, Fin 5, init, philosopher2⟩

/-- All five philosophers have left their loops. -/
def Terminal (s : State) : Prop := ∀ id, (s.ph id).pc = .done

/-- 1 when a philosopher at this statement holds its left fork. -/
def holdsLeft : PPc → Nat
  | .takeRight | .eat | .putLeft => 1
  | _ => 0

/-- 1 when a philosopher at this statement holds its right fork. -/
def holdsRight : PPc → Nat
  | .eat | .putLeft | .putRight => 1
  | _ => 0

/-- 1 when a philosopher at this statement holds a permit of `host`: its
`host.wait()` is completed, its `host.signal()` is not. -/
def admitted : PPc → Nat
  | .takeLeft | .takeRight | .eat | .putLeft | .putRight | .leaveHost => 1
  | _ => 0

/-- 1 when a philosopher at this statement holds at least one fork. -/
def holdsAny (p : PPc) : Nat := if holdsLeft p = 1 ∨ holdsRight p = 1 then 1 else 0

/-- 1 when the philosopher in local state `t` holds a permit of `host`. -/
def admittedW (t : Task PPc) : Nat := admitted t.pc

/-- 1 when the philosopher in local state `t` holds at least one fork. -/
def holdingW (t : Task PPc) : Nat := holdsAny t.pc

/-- Number of philosophers between `host.wait()` and `host.signal()`. -/
def admittedCount (s : State) : Nat := count admittedW s.ph

/-- Number of philosophers holding at least one fork of `sticks2`. -/
def holdingCount (s : State) : Nat := count holdingW s.ph

/-- 1 when philosopher `id` in local state `t` holds fork `k`. -/
def holds (id : Fin 5) (t : Task PPc) (k : Fin 5) : Nat :=
  (if k = left id then holdsLeft t.pc else 0) + (if k = right id then holdsRight t.pc else 0)

/-- Number of philosophers holding fork `k`. -/
def holders (s : State) (k : Fin 5) : Nat := countI fun id => holds id (s.ph id) k

/-- 1 when the philosopher has left its loop. -/
def finished : PPc → Nat
  | .done => 1
  | _ => 0

/-- Inductive invariant of problem 4. -/
structure Inv (s : State) : Prop where
  forks : ∀ k, (s.sticks2 k).sem + holders s k = 1
  permits : s.host.sem + admittedCount s = 4

/-- Statements left before the philosopher thread exits. -/
def remaining (t : Task PPc) : Nat :=
  (ROUNDS - 1 - t.round) * 9 +
    match t.pc with
    | .think => 9 | .askHost => 8 | .takeLeft => 7 | .takeRight => 6 | .eat => 5
    | .putLeft => 4 | .putRight => 3 | .leaveHost => 2 | .report => 1 | .done => 0

/-- Statements left before all philosopher threads have exited. -/
def measure (s : State) : Nat := count remaining s.ph

/-- Recognises the transitions in which philosopher `id` takes a permit of fork `k`. -/
def tookFork (id k : Fin 5) (x : State × Fin 5 × State) : Bool :=
  decide (x.2.1 = id) && decide ((x.2.2.sticks2 k).sem + 1 = (x.1.sticks2 k).sem)

/-- Recognises the transitions in which philosopher `id` takes a permit of `host`. -/
def tookHost (id : Fin 5) (x : State × Fin 5 × State) : Bool :=
  decide (x.2.1 = id) && decide (x.2.2.host.sem + 1 = x.1.host.sem)

/-- 1 when the philosopher has completed `host.wait()` in the current round. -/
def hostDone : PPc → Nat
  | .takeLeft | .takeRight | .eat | .putLeft | .putRight | .leaveHost | .report => 1
  | _ => 0

/-- 1 when the philosopher has completed `sticks2[left].wait()` in the current round. -/
def leftDone : PPc → Nat
  | .takeRight | .eat | .putLeft | .putRight | .leaveHost | .report => 1
  | _ => 0

/-- 1 when the philosopher has completed `sticks2[right].wait()` in the current round. -/
def rightDone : PPc → Nat
  | .eat | .putLeft | .putRight | .leaveHost | .report => 1
  | _ => 0

/-- Invariant relating the transitions taken so far to the loop counters. -/
structure Hist (tr : List (State × Fin 5 × State)) (s : State) : Prop where
  rounds : ∀ id, (s.ph id).round ≤ ROUNDS ∧ ((s.ph id).pc = .done ↔ (s.ph id).round = ROUNDS)
  leftTaken : ∀ id,
    tr.countP (tookFork id (left id)) = (s.ph id).round + leftDone (s.ph id).pc
  rightTaken : ∀ id,
    tr.countP (tookFork id (right id)) = (s.ph id).round + rightDone (s.ph id).pc
  hostTaken : ∀ id, tr.countP (tookHost id) = (s.ph id).round + hostDone (s.ph id).pc

end DP2

/-! ## The dispatcher `main` -/

/-- The four runners declared in `main.cpp`. -/
inductive Runner where
  | run_readers_writers_nostarve
  | run_rw_writer_priority
  | run_dining_phil_asym
  | run_dining_phil_host
deriving DecidableEq, Repr

/-- The protocol executed by a runner: it creates the worker threads and joins them. -/
def Runner.system : Runner → System
  | .run_readers_writers_nostarve => RW1.sys
  | .run_rw_writer_priority => RW2.sys
  | .run_dining_phil_asym => DP1.sys
  | .run_dining_phil_host => DP2.sys

/-- What `main` does. -/
structure MainResult where
  /-- Runners called, in order. -/
  called : List Runner
  /-- Lines written by `main` itself. -/
  output : List String
  /-- Value returned by `main`; `none` when `main` ends in `pthread_exit(NULL)`
  without returning. -/
  ret : Option Int
deriving DecidableEq, Repr

/-- The function `main` of `main.cpp`; `argc` is the length of `argv`, and the
C library function `atoi` is a parameter. -/
def main (atoi : String → Int) (argv : List String) : MainResult :=
  if argv.length ≠ 2 then
    { called := []
      output := ["Usage: " ++ argv.getD 0 "(null)" ++ " <problem number>",
        "  1 = No-starve RW", "  2 = Writer-priority RW", "  3 = Philosophers (asymmetric)",
        "  4 = Philosophers (footman)"]
      ret := some 1 }
  else
    let choice := atoi (argv.getD 1 "")
    if choice = 1 then ⟨[.run_readers_writers_nostarve], [], none⟩
    else if choice = 2 then ⟨[.run_rw_writer_priority], [], none⟩
    else if choice = 3 then ⟨[.run_dining_phil_asym], [], none⟩
    else if choice = 4 then ⟨[.run_dining_phil_host], [], none⟩
    else ⟨[], ["Invalid problem #. Must be 1-4."], some 1⟩

/-- Digits loop of `atoi`. -/
def atoiDigits (acc : Int) : List Char → Int
  | [] => acc
  | c :: cs => if c.isDigit then atoiDigits (acc * 10 + (c.toNat - 48 : Nat)) cs else acc

/-- The C library function `isspace` in the C locale. -/
def isspace (c : Char) : Bool := c.toNat = 32 || (9 ≤ c.toNat && c.toNat ≤ 13)

/-- The C library function `atoi` as implemented by glibc on a 64-bit platform,
`(int) strtol (nptr, NULL, 10)`: skips leading white space, reads an optional
sign and the decimal digits that follow; `strtol` saturates at the range of
`long`, and the conversion to `int` keeps the low 32 bits. -/
def atoi (s : String) : Int :=
  let v : Int :=
    match s.toList.dropWhile isspace with
    | '-' :: rest => - atoiDigits 0 rest
    | '+' :: rest => atoiDigits 0 rest
    | cs => atoiDigits 0 cs
  let l : Int := max (-9223372036854775808) (min v 9223372036854775807)
  (l + 2147483648) % 4294967296 - 2147483648

/-! ## Schedules used as examples -/

/-- Reader 1 passes the gate and takes `r_mutex2`; writer 1 takes `w_mutex2`
and increments `writers2`. -/
def RW2.raceSchedule : List RW2.Tid :=
  [.reader 0, .reader 0, .writer 0, .writer 0]

/-- Reader 1 passes the gate. -/
def RW2.queueSchedule : List RW2.Tid := [.reader 0]

/-- Writer 1 runs its entry section: it increments `writers2` and takes the gate. -/
def RW2.gateSchedule : List RW2.Tid := [.writer 0, .writer 0, .writer 0, .writer 0]

/-- Writer 1 runs its entry section and takes the resource: it is about to
print `Writer 1 writing`. -/
def RW2.writeSchedule : List RW2.Tid :=
  [.writer 0, .writer 0, .writer 0, .writer 0, .writer 0, .writer 0]

/-- Writer 1 takes the resource, reader 1 takes `r_mutex1` and increments `readers1`. -/
def RW1.demoSchedule : List RW1.Tid := [.writer 0, .reader 0, .reader 0]

/-- Philosopher 0 thinks, tests its id and takes its right fork; philosopher 1
thinks. -/
def DP1.demoSchedule : List (Fin 5) := [0, 0, 0, 1]

/-- Philosophers 0 and 1 think and ask the host; philosopher 0 takes its left fork. -/
def DP2.demoSchedule : List (Fin 5) := [0, 1, 0, 1, 0]

/-! ## Theorems -/

theorem count_update {α : Type} (g : α → Nat) (f : Fin 5 → α) (i : Fin 5) (a : α) :
    count g (Function.update f i a) + g (f i) = count g f + g a := by
  fin_cases i <;> simp [count, Function.update] <;> omega

theorem count_update_eq {α : Type} (g : α → Nat) (f : Fin 5 → α) (i : Fin 5) (a : α) :
    count g (Function.update f i a) = count g f + g a - g (f i) := by
  have := count_update g f i a
  omega

theorem le_count {α : Type} (g : α → Nat) (f : Fin 5 → α) (i : Fin 5) :
    g (f i) ≤ count g f := by
  fin_cases i <;> simp [count] <;> omega

theorem occ_update {Pc : Type} [DecidableEq Pc] {f : Fin 5 → Task Pc} {i : Fin 5} {p : Pc}
    (h : (f i).pc = p) (t : Task Pc) (x : Pc) :
    occ (Function.update f i t) x
      = occ f x + (if t.pc = x then 1 else 0) - (if p = x then 1 else 0) := by
  have := count_update (fun t => if t.pc = x then 1 else 0) f i t
  simp only [h] at this
  unfold occ
  omega

theorem occ_pos {Pc : Type} [DecidableEq Pc] {f : Fin 5 → Task Pc} {i : Fin 5} {p : Pc}
    (h : (f i).pc = p) : 1 ≤ occ f p := by
  have := le_count (fun t => if t.pc = p then 1 else 0) f i
  simpa [h] using this

/-- Either no thread is at statement `p`, or what holds of every thread at `p` holds. -/
theorem occ_zero_or {Pc : Type} [DecidableEq Pc] {f : Fin 5 → Task Pc} {p : Pc} {Q : Prop}
    (h : ∀ i, (f i).pc = p → Q) : occ f p = 0 ∨ Q := by
  by_cases hQ : Q
  · exact Or.inr hQ
  · left
    have h0 : ∀ i, (f i).pc ≠ p := fun i hi => hQ (h i hi)
    simp [occ, count, h0]

theorem occ_eq_zero {Pc : Type} [DecidableEq Pc] {f : Fin 5 → Task Pc} {p : Pc}
    (h : ∀ i, (f i).pc ≠ p) : occ f p = 0 := by
  simp [occ, count, h]

theorem ne_of_occ_zero {Pc : Type} [DecidableEq Pc] {f : Fin 5 → Task Pc} {p : Pc}
    (h : occ f p = 0) (i : Fin 5) : (f i).pc ≠ p := by
  intro hi
  have := occ_pos hi
  omega

namespace System

theorem run_invariant (M : System) (P : M.State → Prop)
    (hstep : ∀ s t s', P s → M.step s t = some s' → P s') :
    ∀ sched s s', P s → M.run s sched = some s' → P s' := by
  intro sched
  induction sched with
  | nil =>
    intro s s' hs h
    simp only [run, Option.some.injEq] at h
    exact h ▸ hs
  | cons t ts ih =>
    intro s s' hs h
    simp only [run] at h
    cases hst : M.step s t with
    | none => simp [hst] at h
    | some s1 =>
      rw [hst] at h
      exact ih s1 s' (hstep s t s1 hs hst) h

theorem run_append (M : System) (s : M.State) (xs ys : List M.Tid) :
    M.run s (xs ++ ys) = (M.run s xs).bind fun s' => M.run s' ys := by
  induction xs generalizing s with
  | nil => simp [run]
  | cons t ts ih =>
    simp only [List.cons_append, run]
    cases M.step s t with
    | none => simp
    | some s1 => simp [ih]

/-- Induction over the reachable states. -/
theorem reachable_induction (M : System) (P : M.State → Prop) (h0 : P M.init)
    (hstep : ∀ s t s', P s → M.step s t = some s' → P s') :
    ∀ s, M.Reachable s → P s := by
  rintro s ⟨sched, h⟩
  exact run_invariant M P hstep sched M.init s h0 h

/-- A measure that every step decreases bounds the length of every schedule. -/
theorem run_length (M : System) (μ : M.State → Nat)
    (hμ : ∀ s t s', M.step s t = some s' → μ s' < μ s) :
    ∀ sched s s', M.run s sched = some s' → sched.length + μ s' ≤ μ s := by
  intro sched
  induction sched with
  | nil =>
    intro s s' h
    simp only [run, Option.some.injEq] at h
    simp [h]
  | cons t ts ih =>
    intro s s' h
    simp only [run] at h
    cases hst : M.step s t with
    | none => simp [hst] at h
    | some s1 =>
      rw [hst] at h
      have h1 := ih s1 s' h
      have h2 := hμ s t s1 hst
      simp only [List.length_cons]
      omega

/-- A measure that every step decreases excludes infinite executions. -/
theorem no_infinite_run (M : System) (μ : M.State → Nat)
    (hμ : ∀ s t s', M.step s t = some s' → μ s' < μ s) (σ : Nat → M.State) :
    ¬ ∀ n, ∃ t, M.step (σ n) t = some (σ (n + 1)) := by
  intro h
  have key : ∀ n, n + μ (σ n) ≤ μ (σ 0) := by
    intro n
    induction n with
    | zero => simp
    | succ n ih =>
      obtain ⟨t, ht⟩ := h n
      have := hμ _ _ _ ht
      omega
  have := key (μ (σ 0) + 1)
  omega

theorem not_enabled (M : System) (s : M.State) (h : ¬ M.Enabled s) (t : M.Tid) :
    M.step s t = none := by
  cases hst : M.step s t with
  | none => rfl
  | some s1 => exact absurd ⟨t, by simp [hst]⟩ h

/-- With a decreasing measure and progress in every state satisfying a
step-preserved invariant, some schedule leads to a target state. -/
theorem exists_run_to (M : System) (μ : M.State → Nat) (P T : M.State → Prop)
    (hμ : ∀ s t s', M.step s t = some s' → μ s' < μ s)
    (hP : ∀ s t s', P s → M.step s t = some s' → P s')
    (hprog : ∀ s, P s → T s ∨ M.Enabled s) :
    ∀ n s, μ s ≤ n → P s → ∃ sched s', M.run s sched = some s' ∧ T s' := by
  intro n
  induction n with
  | zero =>
    intro s hn hs
    rcases hprog s hs with hT | ⟨t, ht⟩
    · exact ⟨[], s, rfl, hT⟩
    · obtain ⟨s1, h1⟩ := Option.isSome_iff_exists.mp ht
      have := hμ s t s1 h1
      omega
  | succ n ih =>
    intro s hn hs
    rcases hprog s hs with hT | ⟨t, ht⟩
    · exact ⟨[], s, rfl, hT⟩
    · obtain ⟨s1, h1⟩ := Option.isSome_iff_exists.mp ht
      have hlt := hμ s t s1 h1
      obtain ⟨sched, s2, hrun, hT⟩ := ih s1 (by omega) (hP s t s1 hs h1)
      exact ⟨t :: sched, s2, by simp [run, h1, hrun], hT⟩

theorem reachable_step (M : System) (s : M.State) (t : M.Tid) (s' : M.State)
    (h : M.Reachable s) (hst : M.step s t = some s') : M.Reachable s' := by
  obtain ⟨sched, hrun⟩ := h
  refine ⟨sched ++ [t], ?_⟩
  rw [run_append, hrun]
  simp [run, hst]

theorem transitions_invariant (M : System)
    (P : List (M.State × M.Tid × M.State) → M.State → Prop)
    (hstep : ∀ tr s t s', P tr s → M.step s t = some s' → P (tr ++ [(s, t, s')]) s') :
    ∀ sched s s' tr, P tr s → M.run s sched = some s' →
      P (tr ++ M.transitions s sched) s' := by
  intro sched
  induction sched with
  | nil =>
    intro s s' tr hs h
    simp only [run, Option.some.injEq] at h
    simpa [transitions, ← h] using hs
  | cons t ts ih =>
    intro s s' tr hs h
    simp only [run] at h
    cases hst : M.step s t with
    | none => simp [hst] at h
    | some s1 =>
      rw [hst] at h
      have := ih s1 s' (tr ++ [(s, t, s1)]) (hstep tr s t s1 hs hst) h
      simpa [transitions, hst] using this

/-- A measure that every step decreases by one counts the steps. -/
theorem run_length_exact (M : System) (μ : M.State → Nat)
    (hμ : ∀ s t s', M.step s t = some s' → μ s' + 1 = μ s) :
    ∀ sched s s', M.run s sched = some s' → sched.length + μ s' = μ s := by
  intro sched
  induction sched with
  | nil =>
    intro s s' h
    simp only [run, Option.some.injEq] at h
    simp [h]
  | cons t ts ih =>
    intro s s' h
    simp only [run] at h
    cases hst : M.step s t with
    | none => simp [hst] at h
    | some s1 =>
      rw [hst] at h
      have h1 := ih s1 s' h
      have h2 := hμ s t s1 hst
      simp only [List.length_cons]
      omega

end System

namespace RW1

theorem rw1_inv_init : Inv init := by
  constructor <;> simp [init, occ, count, writing]

theorem rw1_inv_reader (s s' : State) (i : Fin 5) (h : Inv s) (hs : reader1 s i = some s') :
    Inv s' := by
  obtain ⟨h1, h2, h3, h4, h5, h6, h7⟩ := h
  simp only [writing] at h5 h6 h7
  unfold reader1 at hs
  simp only [Task.next, ROUNDS] at hs
  split at hs
  all_goals rename_i hpc
  all_goals obtain ⟨k, hk⟩ := Nat.exists_eq_add_of_le (occ_pos hpc)
  all_goals try split at hs
  all_goals simp [Semaphore.wait, Semaphore.signal] at hs
  all_goals first | subst hs | obtain ⟨hpos, rfl⟩ := hs
  all_goals try simp only [hk] at h1 h2 h3 h4 h5 h6 h7
  all_goals constructor
  all_goals simp only [occ_update hpc, writing, hk, reduceCtorEq, if_true, if_false,
    Nat.add_zero, Nat.sub_zero, Nat.add_sub_cancel_left]
  all_goals first | assumption | omega

theorem rw1_inv_writer (s s' : State) (i : Fin 5) (h : Inv s) (hs : writer1 s i = some s') :
    Inv s' := by
  obtain ⟨h1, h2, h3, h4, h5, h6, h7⟩ := h
  simp only [writing] at h5 h6 h7
  unfold writer1 at hs
  simp only [Task.next, ROUNDS] at hs
  split at hs
  all_goals rename_i hpc
  all_goals obtain ⟨k, hk⟩ := Nat.exists_eq_add_of_le (occ_pos hpc)
  all_goals try split at hs
  all_goals simp [Semaphore.wait, Semaphore.signal] at hs
  all_goals first | subst hs | obtain ⟨hpos, rfl⟩ := hs
  all_goals try simp only [hk] at h1 h2 h3 h4 h5 h6 h7
  all_goals constructor
  all_goals simp only [occ_update hpc, writing, hk, reduceCtorEq, if_true, if_false,
    Nat.add_zero, Nat.sub_zero, Nat.add_sub_cancel_left]
  all_goals first | assumption | omega

theorem rw1_inv_reachable (s : State) (h : sys.Reachable s) : Inv s := by
  refine System.reachable_induction sys Inv rw1_inv_init ?_ s h
  intro s t s' hs hst
  cases t with
  | reader i => exact rw1_inv_reader s s' i hs hst
  | writer i => exact rw1_inv_writer s s' i hs hst

theorem rw1_reader_blocked (s : State) (i : Fin 5) (h : reader1 s i = none) :
    ((s.rd i).pc = .lockEntry ∧ s.r_mutex1.sem = 0) ∨
    ((s.rd i).pc = .lockRes ∧ s.resource1.sem = 0) ∨
    ((s.rd i).pc = .lockExit ∧ s.r_mutex1.sem = 0) ∨ (s.rd i).pc = .done := by
  unfold reader1 at h
  simp only at h
  split at h
  all_goals rename_i hpc
  all_goals try split at h
  all_goals simp [Semaphore.wait, hpc] at h ⊢
  all_goals exact h

theorem rw1_writer_blocked (s : State) (i : Fin 5) (h : writer1 s i = none) :
    ((s.wr i).pc = .lockRes ∧ s.resource1.sem = 0) ∨ (s.wr i).pc = .done := by
  unfold writer1 at h
  simp only at h
  split at h
  all_goals rename_i hpc
  all_goals simp [Semaphore.wait, hpc] at h ⊢
  all_goals exact h

/-- A state of problem 1 satisfying the invariant in which no thread can
take a step is terminal. -/
theorem rw1_stuck_terminal (s : State) (hinv : Inv s) (hstuck : ∀ t, step s t = none) :
    Terminal s := by
  have hr := fun i => rw1_reader_blocked s i (hstuck (.reader i))
  have hw := fun i => rw1_writer_blocked s i (hstuck (.writer i))
  obtain ⟨h1, h2, h3, h4, h5, h6, h7⟩ := hinv
  simp only [writing] at h5 h6 h7
  have r1 : occ s.rd .incr = 0 := occ_eq_zero fun i hi => by
    rcases hr i with ⟨h, _⟩ | ⟨h, _⟩ | ⟨h, _⟩ | h <;> simp [h] at hi
  have r2 : occ s.rd .testFirst = 0 := occ_eq_zero fun i hi => by
    rcases hr i with ⟨h, _⟩ | ⟨h, _⟩ | ⟨h, _⟩ | h <;> simp [h] at hi
  have r3 : occ s.rd .unlockEntry = 0 := occ_eq_zero fun i hi => by
    rcases hr i with ⟨h, _⟩ | ⟨h, _⟩ | ⟨h, _⟩ | h <;> simp [h] at hi
  have r4 : occ s.rd .reading = 0 := occ_eq_zero fun i hi => by
    rcases hr i with ⟨h, _⟩ | ⟨h, _⟩ | ⟨h, _⟩ | h <;> simp [h] at hi
  have r5 : occ s.rd .decr = 0 := occ_eq_zero fun i hi => by
    rcases hr i with ⟨h, _⟩ | ⟨h, _⟩ | ⟨h, _⟩ | h <;> simp [h] at hi
  have r6 : occ s.rd .testLast = 0 := occ_eq_zero fun i hi => by
    rcases hr i with ⟨h, _⟩ | ⟨h, _⟩ | ⟨h, _⟩ | h <;> simp [h] at hi
  have r7 : occ s.rd .unlockRes = 0 := occ_eq_zero fun i hi => by
    rcases hr i with ⟨h, _⟩ | ⟨h, _⟩ | ⟨h, _⟩ | h <;> simp [h] at hi
  have r8 : occ s.rd .unlockExit = 0 := occ_eq_zero fun i hi => by
    rcases hr i with ⟨h, _⟩ | ⟨h, _⟩ | ⟨h, _⟩ | h <;> simp [h] at hi
  have b1 : occ s.rd .lockEntry = 0 ∨ s.r_mutex1.sem = 0 := occ_zero_or fun i hi => by
    rcases hr i with ⟨h, hb⟩ | ⟨h, _⟩ | ⟨h, _⟩ | h <;> simp [h] at hi
    exact hb
  have b2 : occ s.rd .lockRes = 0 ∨ s.resource1.sem = 0 := occ_zero_or fun i hi => by
    rcases hr i with ⟨h, _⟩ | ⟨h, hb⟩ | ⟨h, _⟩ | h <;> simp [h] at hi
    exact hb
  have b3 : occ s.rd .lockExit = 0 ∨ s.r_mutex1.sem = 0 := occ_zero_or fun i hi => by
    rcases hr i with ⟨h, _⟩ | ⟨h, _⟩ | ⟨h, hb⟩ | h <;> simp [h] at hi
    exact hb
  have w1 : occ s.wr .writing = 0 := occ_eq_zero fun i hi => by
    rcases hw i with ⟨h, _⟩ | h <;> simp [h] at hi
  have w2 : occ s.wr .unlockRes = 0 := occ_eq_zero fun i hi => by
    rcases hw i with ⟨h, _⟩ | h <;> simp [h] at hi
  have b4 : occ s.wr .lockRes = 0 ∨ s.resource1.sem = 0 := occ_zero_or fun i hi => by
    rcases hw i with ⟨h, hb⟩ | h <;> simp [h] at hi
    exact hb
  have z1 : occ s.rd .lockEntry = 0 := by omega
  have z2 : occ s.rd .lockRes = 0 := by omega
  have z3 : occ s.rd .lockExit = 0 := by omega
  have z4 : occ s.wr .lockRes = 0 := by omega
  constructor
  · intro i
    rcases hr i with ⟨h, _⟩ | ⟨h, _⟩ | ⟨h, _⟩ | h
    · exact absurd h (ne_of_occ_zero z1 i)
    · exact absurd h (ne_of_occ_zero z2 i)
    · exact absurd h (ne_of_occ_zero z3 i)
    · exact h
  · intro i
    rcases hw i with ⟨h, _⟩ | h
    · exact absurd h (ne_of_occ_zero z4 i)
    · exact h

theorem rw1_measure_reader (s s' : State) (i : Fin 5) (hs : reader1 s i = some s') :
    measure s' < measure s := by
  have hl := le_count remainingR s.rd i
  unfold reader1 at hs
  simp only [Task.next, ROUNDS] at hs
  split at hs
  all_goals rename_i hpc
  all_goals try split at hs
  all_goals simp [Semaphore.wait, Semaphore.signal] at hs
  all_goals first | subst hs | obtain ⟨hpos, rfl⟩ := hs
  all_goals simp only [measure, count_update_eq, remainingR, hpc, ROUNDS] at hl ⊢
  all_goals omega

theorem rw1_measure_writer (s s' : State) (i : Fin 5) (hs : writer1 s i = some s') :
    measure s' < measure s := by
  have hl := le_count remainingW s.wr i
  unfold writer1 at hs
  simp only [Task.next, ROUNDS] at hs
  split at hs
  all_goals rename_i hpc
  all_goals try split at hs
  all_goals simp [Semaphore.wait, Semaphore.signal] at hs
  all_goals first | subst hs | obtain ⟨hpos, rfl⟩ := hs
  all_goals simp only [measure, count_update_eq, remainingW, hpc, ROUNDS] at hl ⊢
  all_goals omega

theorem rw1_measure_step (s : sys.State) (t : sys.Tid) (s' : sys.State)
    (h : sys.step s t = some s') : measure s' < measure s := by
  cases t with
  | reader i => exact rw1_measure_reader s s' i h
  | writer i => exact rw1_measure_writer s s' i h

theorem rw1_log_init : Log init := by
  constructor <;> simp [init, count, linesR, linesW, printedR, printedW, ROUNDS]

theorem rw1_log_reader (s s' : State) (i : Fin 5) (h : Log s) (hs : reader1 s i = some s') :
    Log s' := by
  obtain ⟨h1, h2, h3, h4, h5, h6⟩ := h
  have hl := le_count linesR s.rd i
  have h1i := h1 i
  have h3i := h3 i
  unfold reader1 at hs
  simp only [Task.next, ROUNDS] at hs
  split at hs
  all_goals rename_i hpc
  all_goals try split at hs
  all_goals simp [Semaphore.wait, Semaphore.signal] at hs
  all_goals first | subst hs | obtain ⟨hpos, rfl⟩ := hs
  all_goals simp only [hpc, linesR, printedR, ROUNDS, reduceCtorEq, false_iff, true_iff]
    at hl h1i h3i
  all_goals constructor
  all_goals first
    | exact h1 | exact h2 | exact h3 | exact h4 | exact h5 | exact h6
    | (intro j
       simp only [List.count_append, List.count_singleton, beq_iff_eq, reduceCtorEq, if_false,
         Nat.add_zero]
       first | exact h3 j | exact h4 j)
    | (intro j
       by_cases hj : j = i
       · subst hj
         simp [linesR, printedR, ROUNDS, List.count_append]
         omega
       · have hv : ¬ i.val = j.val := fun e => hj (Fin.ext e.symm)
         simp [Function.update_noteq hj, List.count_append, List.count_singleton, hv]
         first | exact h1 j | exact h3 j)
    | (simp [count_update_eq, linesR, printedR, hpc, List.countP_append, Event.isReading,
         Event.isWriting]
       first | exact h5 | exact h6 | omega)

theorem rw1_log_writer (s s' : State) (i : Fin 5) (h : Log s) (hs : writer1 s i = some s') :
    Log s' := by
  obtain ⟨h1, h2, h3, h4, h5, h6⟩ := h
  have hl := le_count linesW s.wr i
  have h2i := h2 i
  have h4i := h4 i
  unfold writer1 at hs
  simp only [Task.next, ROUNDS] at hs
  split at hs
  all_goals rename_i hpc
  all_goals try split at hs
  all_goals simp [Semaphore.wait, Semaphore.signal] at hs
  all_goals first | subst hs | obtain ⟨hpos, rfl⟩ := hs
  all_goals simp only [hpc, linesW, printedW, ROUNDS, reduceCtorEq, false_iff, true_iff]
    at hl h2i h4i
  all_goals constructor
  all_goals first
    | exact h1 | exact h2 | exact h3 | exact h4 | exact h5 | exact h6
    | (intro j
       simp only [List.count_append, List.count_singleton, beq_iff_eq, reduceCtorEq, if_false,
         Nat.add_zero]
       first | exact h3 j | exact h4 j)
    | (intro j
       by_cases hj : j = i
       · subst hj
         simp [linesW, printedW, ROUNDS, List.count_append]
         omega
       · have hv : ¬ i.val = j.val := fun e => hj (Fin.ext e.symm)
         simp [Function.update_noteq hj, List.count_append, List.count_singleton, hv]
         first | exact h2 j | exact h4 j)
    | (simp [count_update_eq, linesW, printedW, hpc, List.countP_append, Event.isReading,
         Event.isWriting]
       first | exact h5 | exact h6 | omega)

theorem rw1_log_reachable (s : State) (h : sys.Reachable s) : Log s := by
  refine System.reachable_induction sys Log rw1_log_init ?_ s h
  intro s t s' hs hst
  cases t with
  | reader i => exact rw1_log_reader s s' i hs hst
  | writer i => exact rw1_log_writer s s' i hs hst

theorem rw1_enabled_or_terminal (s : State) (h : sys.Reachable s) : Terminal s ∨ sys.Enabled s := by
  by_cases he : sys.Enabled s
  · exact Or.inr he
  · exact Or.inl (rw1_stuck_terminal s (rw1_inv_reachable s h) (System.not_enabled sys s he))

theorem rw1_terminal_lines (s : State) (h : Log s) (ht : Terminal s) :
    s.out.countP Event.isReading = 20 ∧ s.out.countP Event.isWriting = 20 ∧
    ∀ i : Fin 5, s.out.count (Event.reading (i.val + 1)) = 4 ∧
      s.out.count (Event.writing (i.val + 1)) = 4 := by
  obtain ⟨h1, h2, h3, h4, h5, h6⟩ := h
  obtain ⟨tr, tw⟩ := ht
  have er : ∀ i, linesR (s.rd i) = 4 := fun i => by
    have := (h1 i).2.mp (tr i)
    simp [linesR, printedR, tr i, this]
  have ew : ∀ i, linesW (s.wr i) = 4 := fun i => by
    have := (h2 i).2.mp (tw i)
    simp [linesW, printedW, tw i, this]
  refine ⟨?_, ?_, fun i => ⟨?_, ?_⟩⟩
  · rw [h5]
    simp [count, er]
  · rw [h6]
    simp [count, ew]
  · rw [h3 i, er i]
  · rw [h4 i, ew i]

theorem rw1_reader_wr (s s' : State) (k : Fin 5) (hs : reader1 s k = some s') :
    s'.wr = s.wr := by
  unfold reader1 at hs
  simp only at hs
  split at hs
  all_goals try split at hs
  all_goals simp [Semaphore.wait] at hs
  all_goals first | subst hs | obtain ⟨hpos, rfl⟩ := hs
  all_goals rfl

theorem rw1_hist_writer (tr : List (State × Tid × State)) (s s' : State) (k j : Fin 5)
    (h : tr.countP (tookResource j) = (s.wr j).round + inWriting (s.wr j).pc)
    (hs : writer1 s k = some s') :
    (tr ++ [(s, Tid.writer k, s')]).countP (tookResource j)
      = (s'.wr j).round + inWriting (s'.wr j).pc := by
  unfold writer1 at hs
  simp only [Task.next, ROUNDS] at hs
  split at hs
  all_goals rename_i hpc
  all_goals try split at hs
  all_goals simp [Semaphore.wait, Semaphore.signal] at hs
  all_goals first | subst hs | obtain ⟨hpos, rfl⟩ := hs
  all_goals by_cases hj : j = k
  all_goals first
    | (subst hj
       simp only [hpc, inWriting] at h
       simp [tookResource, List.countP_append, List.countP_cons, inWriting, h] <;> omega)
    | (have hj' : ¬ k = j := fun e => hj e.symm
       simp only [Function.update_noteq hj, tookResource, List.countP_append, List.countP_cons,
         List.countP_nil, Tid.writer.injEq, hj', decide_False, Bool.false_and, Nat.add_zero,
         if_false, Bool.false_eq_true]
       exact h)

theorem rw1_hist_step (tr : List (sys.State × sys.Tid × sys.State)) (s : sys.State)
    (t : sys.Tid) (s' : sys.State) (h : Hist tr s) (hs : sys.step s t = some s') :
    Hist (tr ++ [(s, t, s')]) s' := by
  cases t with
  | reader k =>
    constructor
    intro i
    have e := rw1_reader_wr s s' k hs
    simp only [tookResource, List.countP_append, List.countP_cons, List.countP_nil,
      reduceCtorEq, decide_False, Bool.false_and, Nat.add_zero, if_false, Bool.false_eq_true, e]
    exact h.taken i
  | writer k => exact ⟨fun i => rw1_hist_writer tr s s' k i (h.taken i) hs⟩

theorem rw1_hist_run (sched : List Tid) (s : State)
    (h : sys.run init sched = some s) : Hist (sys.transitions init sched) s := by
  have h0 : Hist [] init := ⟨fun i => by simp [init, inWriting]⟩
  have := System.transitions_invariant sys Hist rw1_hist_step sched init s [] h0 h
  simpa using this

theorem rw1_writing_exclusive (s : State) (h : Inv s) (i : Fin 5)
    (hi : inWriting (s.wr i).pc = 1) :
    s.resource1.sem = 0 ∧ writing s = 1 ∧ readingNow s = 0 := by
  obtain ⟨h1, h2, h3, h4, h5, h6, h7⟩ := h
  have hp : 1 ≤ writing s := by
    have a := le_count (fun t => if t.pc = WPc.writing then 1 else 0) s.wr i
    have b := le_count (fun t => if t.pc = WPc.unlockRes then 1 else 0) s.wr i
    simp only [writing, occ]
    cases hpc : (s.wr i).pc <;> simp [hpc, inWriting] at hi a b ⊢ <;> omega
  simp only [readingNow] at *
  refine ⟨?_, ?_, ?_⟩ <;> omega

theorem rw1_reading_shared (s : State) (h : Inv s) (i : Fin 5)
    (hi : (s.rd i).pc = .reading) : s.resource1.sem = 0 ∧ writing s = 0 := by
  obtain ⟨h1, h2, h3, h4, h5, h6, h7⟩ := h
  have hp := occ_pos hi
  constructor <;> omega

end RW1

namespace RW2

theorem rw2_inv_init : Inv init := by
  constructor <;> simp [init, occ, count, writing, gated]

theorem rw2_inv_reader (s s' : State) (i : Fin 5) (h : Inv s) (hs : reader2 s i = some s') :
    Inv s' := by
  obtain ⟨h1, h2, h3, h4, h5, h6, h7, h8, h9, h10, h11, h12, h13, h14⟩ := h
  simp only [writing, gated] at h9 h10 h11 h12 h13 h14
  unfold reader2 at hs
  simp only [Task.next, ROUNDS] at hs
  split at hs
  all_goals rename_i hpc
  all_goals obtain ⟨k, hk⟩ := Nat.exists_eq_add_of_le (occ_pos hpc)
  all_goals try split at hs
  all_goals simp [Semaphore.wait, Semaphore.signal] at hs
  all_goals first | subst hs | obtain ⟨hpos, rfl⟩ := hs
  all_goals try simp only [hk] at h1 h2 h3 h4 h5 h6 h7 h8 h9 h10 h11 h12 h13 h14
  all_goals constructor
  all_goals simp only [occ_update hpc, writing, gated, hk, reduceCtorEq, if_true, if_false,
    Nat.add_zero, Nat.sub_zero, Nat.add_sub_cancel_left]
  all_goals first
    | assumption
    | (clear h3 h4 h5 h6 h7 h8 h9 h10 h11 h12 h13 h14; omega)
    | (clear h1 h2 h5 h6 h7 h8 h9 h10 h11 h12 h13 h14; omega)
    | (clear h3 h4 h9 h10 h11 h12 h13 h14; omega)
    | (clear h1 h2 h3 h4 h5 h6 h7 h8 h12 h13 h14; omega)
    | (clear h1 h2 h3 h4 h5 h6 h7 h8 h9 h10 h11; omega)
    | (clear h2 h4 h7 h8 h12 h13 h14; omega)

theorem rw2_inv_writer (s s' : State) (i : Fin 5) (h : Inv s) (hs : writer2 s i = some s') :
    Inv s' := by
  obtain ⟨h1, h2, h3, h4, h5, h6, h7, h8, h9, h10, h11, h12, h13, h14⟩ := h
  simp only [writing, gated] at h9 h10 h11 h12 h13 h14
  unfold writer2 at hs
  simp only [Task.next, ROUNDS] at hs
  split at hs
  all_goals rename_i hpc
  all_goals obtain ⟨k, hk⟩ := Nat.exists_eq_add_of_le (occ_pos hpc)
  all_goals try split at hs
  all_goals simp [Semaphore.wait, Semaphore.signal] at hs
  all_goals first | subst hs | obtain ⟨hpos, rfl⟩ := hs
  all_goals try simp only [hk] at h1 h2 h3 h4 h5 h6 h7 h8 h9 h10 h11 h12 h13 h14
  all_goals constructor
  all_goals simp only [occ_update hpc, writing, gated, hk, reduceCtorEq, if_true, if_false,
    Nat.add_zero, Nat.sub_zero, Nat.add_sub_cancel_left]
  all_goals first
    | assumption
    | (clear h3 h4 h5 h6 h7 h8 h9 h10 h11 h12 h13 h14; omega)
    | (clear h1 h2 h5 h6 h7 h8 h9 h10 h11 h12 h13 h14; omega)
    | (clear h3 h4 h9 h10 h11 h12 h13 h14; omega)
    | (clear h1 h2 h3 h4 h5 h6 h7 h8 h12 h13 h14; omega)
    | (clear h1 h2 h3 h4 h5 h6 h7 h8 h9 h10 h11; omega)
    | (clear h2 h4 h7 h8 h12 h13 h14; omega)
    | (clear h1 h3 h5 h6 h9 h10 h11; omega)

theorem rw2_inv_reachable (s : State) (h : sys.Reachable s) : Inv s := by
  refine System.reachable_induction sys Inv rw2_inv_init ?_ s h
  intro s t s' hs hst
  cases t with
  | reader i => exact rw2_inv_reader s s' i hs hst
  | writer i => exact rw2_inv_writer s s' i hs hst

theorem rw2_reader_blocked (s : State) (i : Fin 5) (h : reader2 s i = none) :
    ((s.rd i).pc = .lockGate ∧ s.try_read.sem = 0) ∨
    ((s.rd i).pc = .lockEntry ∧ s.r_mutex2.sem = 0) ∨
    ((s.rd i).pc = .lockRes ∧ s.resource2.sem = 0) ∨
    ((s.rd i).pc = .lockExit ∧ s.r_mutex2.sem = 0) ∨ (s.rd i).pc = .done := by
  unfold reader2 at h
  simp only at h
  split at h
  all_goals rename_i hpc
  all_goals try split at h
  all_goals simp [Semaphore.wait, hpc] at h ⊢
  all_goals exact h

theorem rw2_writer_blocked (s : State) (i : Fin 5) (h : writer2 s i = none) :
    ((s.wr i).pc = .lockEntry ∧ s.w_mutex2.sem = 0) ∨
    ((s.wr i).pc = .lockGate ∧ s.try_read.sem = 0) ∨
    ((s.wr i).pc = .lockRes ∧ s.resource2.sem = 0) ∨
    ((s.wr i).pc = .lockExit ∧ s.w_mutex2.sem = 0) ∨ (s.wr i).pc = .done := by
  unfold writer2 at h
  simp only at h
  split at h
  all_goals rename_i hpc
  all_goals try split at h
  all_goals simp [Semaphore.wait, hpc] at h ⊢
  all_goals exact h

theorem rw2_reader_free (s : State) (hstuck : ∀ t, step s t = none) (p : RPc)
    (hp : p ≠ .lockGate ∧ p ≠ .lockEntry ∧ p ≠ .lockRes ∧ p ≠ .lockExit ∧ p ≠ .done) :
    occ s.rd p = 0 :=
  occ_eq_zero fun i hi => by
    rcases rw2_reader_blocked s i (hstuck (.reader i)) with
      ⟨h, _⟩ | ⟨h, _⟩ | ⟨h, _⟩ | ⟨h, _⟩ | h <;> simp [← hi, h] at hp

theorem rw2_writer_free (s : State) (hstuck : ∀ t, step s t = none) (p : WPc)
    (hp : p ≠ .lockEntry ∧ p ≠ .lockGate ∧ p ≠ .lockRes ∧ p ≠ .lockExit ∧ p ≠ .done) :
    occ s.wr p = 0 :=
  occ_eq_zero fun i hi => by
    rcases rw2_writer_blocked s i (hstuck (.writer i)) with
      ⟨h, _⟩ | ⟨h, _⟩ | ⟨h, _⟩ | ⟨h, _⟩ | h <;> simp [← hi, h] at hp

/-- A state of problem 2 satisfying the invariant in which no thread can
take a step is terminal. -/
theorem rw2_stuck_terminal (s : State) (hinv : Inv s) (hstuck : ∀ t, step s t = none) :
    Terminal s := by
  have hr := fun i => rw2_reader_blocked s i (hstuck (.reader i))
  have hw := fun i => rw2_writer_blocked s i (hstuck (.writer i))
  obtain ⟨h1, h2, h3, h4, h5, h6, h7, h8, h9, h10, h11, h12, h13, h14⟩ := hinv
  simp only [writing, gated] at h9 h10 h11 h12 h13 h14
  have r1 := rw2_reader_free s hstuck .incr (by decide)
  have r2 := rw2_reader_free s hstuck .testFirst (by decide)
  have r3 := rw2_reader_free s hstuck .unlockEntry (by decide)
  have r4 := rw2_reader_free s hstuck .unlockGate (by decide)
  have r5 := rw2_reader_free s hstuck .reading (by decide)
  have r6 := rw2_reader_free s hstuck .decr (by decide)
  have r7 := rw2_reader_free s hstuck .testLast (by decide)
  have r8 := rw2_reader_free s hstuck .unlockRes (by decide)
  have r9 := rw2_reader_free s hstuck .unlockExit (by decide)
  have w1 := rw2_writer_free s hstuck .incr (by decide)
  have w2 := rw2_writer_free s hstuck .testFirst (by decide)
  have w3 := rw2_writer_free s hstuck .unlockEntry (by decide)
  have w4 := rw2_writer_free s hstuck .writing (by decide)
  have w5 := rw2_writer_free s hstuck .unlockRes (by decide)
  have w6 := rw2_writer_free s hstuck .decr (by decide)
  have w7 := rw2_writer_free s hstuck .testLast (by decide)
  have w8 := rw2_writer_free s hstuck .unlockGate (by decide)
  have w9 := rw2_writer_free s hstuck .unlockExit (by decide)
  have b1 : occ s.rd .lockGate = 0 ∨ s.try_read.sem = 0 := occ_zero_or fun i hi => by
    rcases hr i with ⟨h, hb⟩ | ⟨h, _⟩ | ⟨h, _⟩ | ⟨h, _⟩ | h <;> simp [h] at hi
    exact hb
  have b2 : occ s.rd .lockEntry = 0 ∨ s.r_mutex2.sem = 0 := occ_zero_or fun i hi => by
    rcases hr i with ⟨h, _⟩ | ⟨h, hb⟩ | ⟨h, _⟩ | ⟨h, _⟩ | h <;> simp [h] at hi
    exact hb
  have b3 : occ s.rd .lockRes = 0 ∨ s.resource2.sem = 0 := occ_zero_or fun i hi => by
    rcases hr i with ⟨h, _⟩ | ⟨h, _⟩ | ⟨h, hb⟩ | ⟨h, _⟩ | h <;> simp [h] at hi
    exact hb
  have b4 : occ s.rd .lockExit = 0 ∨ s.r_mutex2.sem = 0 := occ_zero_or fun i hi => by
    rcases hr i with ⟨h, _⟩ | ⟨h, _⟩ | ⟨h, _⟩ | ⟨h, hb⟩ | h <;> simp [h] at hi
    exact hb
  have c1 : occ s.wr .lockEntry = 0 ∨ s.w_mutex2.sem = 0 := occ_zero_or fun i hi => by
    rcases hw i with ⟨h, hb⟩ | ⟨h, _⟩ | ⟨h, _⟩ | ⟨h, _⟩ | h <;> simp [h] at hi
    exact hb
  have c2 : occ s.wr .lockGate = 0 ∨ s.try_read.sem = 0 := occ_zero_or fun i hi => by
    rcases hw i with ⟨h, _⟩ | ⟨h, hb⟩ | ⟨h, _⟩ | ⟨h, _⟩ | h <;> simp [h] at hi
    exact hb
  have c3 : occ s.wr .lockRes = 0 ∨ s.resource2.sem = 0 := occ_zero_or fun i hi => by
    rcases hw i with ⟨h, _⟩ | ⟨h, _⟩ | ⟨h, hb⟩ | ⟨h, _⟩ | h <;> simp [h] at hi
    exact hb
  have c4 : occ s.wr .lockExit = 0 ∨ s.w_mutex2.sem = 0 := occ_zero_or fun i hi => by
    rcases hw i with ⟨h, _⟩ | ⟨h, _⟩ | ⟨h, _⟩ | ⟨h, hb⟩ | h <;> simp [h] at hi
    exact hb
  simp only [r1, r2, r3, r4, r5, r6, r7, r8, r9, w1, w2, w3, w4, w5, w6, w7, w8, w9,
    Nat.add_zero, Nat.zero_add] at h1 h2 h3 h4 h5 h6 h7 h8 h9 h10 h11 h12 h13 h14
  have z2 : occ s.rd .lockRes = 0 := by clear * - h5 h10 b3; omega
  have z1 : occ s.rd .lockEntry = 0 := by clear * - h1 z2 b2; omega
  have z3 : occ s.rd .lockExit = 0 := by clear * - h1 z2 b4; omega
  have y3 : occ s.wr .lockRes = 0 := by clear * - h3 z2 z3 h11 c3; omega
  have y2 : occ s.wr .lockGate = 0 := by clear * - h7 h13 z1 z2 c2; omega
  have y1 : occ s.wr .lockEntry = 0 := by clear * - h2 y2 c1; omega
  have y4 : occ s.wr .lockExit = 0 := by clear * - h2 y2 c4; omega
  have z4 : occ s.rd .lockGate = 0 := by clear * - h4 y2 y3 y4 h14 z1 z2 b1; omega
  constructor
  · intro i
    rcases hr i with ⟨h, _⟩ | ⟨h, _⟩ | ⟨h, _⟩ | ⟨h, _⟩ | h
    · exact absurd h (ne_of_occ_zero z4 i)
    · exact absurd h (ne_of_occ_zero z1 i)
    · exact absurd h (ne_of_occ_zero z2 i)
    · exact absurd h (ne_of_occ_zero z3 i)
    · exact h
  · intro i
    rcases hw i with ⟨h, _⟩ | ⟨h, _⟩ | ⟨h, _⟩ | ⟨h, _⟩ | h
    · exact absurd h (ne_of_occ_zero y1 i)
    · exact absurd h (ne_of_occ_zero y2 i)
    · exact absurd h (ne_of_occ_zero y3 i)
    · exact absurd h (ne_of_occ_zero y4 i)
    · exact h

theorem rw2_measure_reader (s s' : State) (i : Fin 5) (hs : reader2 s i = some s') :
    measure s' < measure s := by
  have hl := le_count remainingR s.rd i
  unfold reader2 at hs
  simp only [Task.next, ROUNDS] at hs
  split at hs
  all_goals rename_i hpc
  all_goals try split at hs
  all_goals simp [Semaphore.wait, Semaphore.signal] at hs
  all_goals first | subst hs | obtain ⟨hpos, rfl⟩ := hs
  all_goals simp only [measure, count_update_eq, remainingR, hpc, ROUNDS] at hl ⊢
  all_goals omega

theorem rw2_measure_writer (s s' : State) (i : Fin 5) (hs : writer2 s i = some s') :
    measure s' < measure s := by
  have hl := le_count remainingW s.wr i
  unfold writer2 at hs
  simp only [Task.next, ROUNDS] at hs
  split at hs
  all_goals rename_i hpc
  all_goals try split at hs
  all_goals simp [Semaphore.wait, Semaphore.signal] at hs
  all_goals first | subst hs | obtain ⟨hpos, rfl⟩ := hs
  all_goals simp only [measure, count_update_eq, remainingW, hpc, ROUNDS] at hl ⊢
  all_goals omega

theorem rw2_measure_step (s : sys.State) (t : sys.Tid) (s' : sys.State)
    (h : sys.step s t = some s') : measure s' < measure s := by
  cases t with
  | reader i => exact rw2_measure_reader s s' i h
  | writer i => exact rw2_measure_writer s s' i h

theorem rw2_enabled_or_terminal (s : State) (h : sys.Reachable s) : Terminal s ∨ sys.Enabled s := by
  by_cases he : sys.Enabled s
  · exact Or.inr he
  · exact Or.inl (rw2_stuck_terminal s (rw2_inv_reachable s h) (System.not_enabled sys s he))

/-- In a state satisfying the invariant at most one writer is in its writing
region, and then no reader is in its reading region. -/
theorem rw2_exclusion (s : State) (h : Inv s) :
    writing s ≤ 1 ∧ (writing s = 0 ∨ (readingNow s = 0 ∧ s.resource2.sem = 0)) := by
  obtain ⟨h1, h2, h3, h4, h5, h6, h7, h8, h9, h10, h11, h12, h13, h14⟩ := h
  clear h2 h4 h7 h8 h12 h13 h14
  simp only [readingNow] at *
  constructor <;> omega

theorem rw2_terminal_state (s : State) (h : Inv s) (ht : Terminal s) :
    s.readers2 = 0 ∧ s.writers2 = 0 ∧ s.r_mutex2.sem = 1 ∧ s.w_mutex2.sem = 1 ∧
    s.try_read.sem = 1 ∧ s.resource2.sem = 1 := by
  obtain ⟨tr, tw⟩ := ht
  have zr : ∀ p, p ≠ RPc.done → occ s.rd p = 0 := fun p hp =>
    occ_eq_zero fun i hi => hp (hi ▸ tr i)
  have zw : ∀ p, p ≠ WPc.done → occ s.wr p = 0 := fun p hp =>
    occ_eq_zero fun i hi => hp (hi ▸ tw i)
  obtain ⟨h1, h2, h3, h4, h5, h6, h7, h8, h9, h10, h11, h12, h13, h14⟩ := h
  simp only [writing, gated] at h9 h10 h11 h12 h13 h14
  simp only [zr _ (by decide : RPc.incr ≠ .done), zr _ (by decide : RPc.testFirst ≠ .done),
    zr _ (by decide : RPc.lockRes ≠ .done), zr _ (by decide : RPc.unlockEntry ≠ .done),
    zr _ (by decide : RPc.decr ≠ .done), zr _ (by decide : RPc.testLast ≠ .done),
    zr _ (by decide : RPc.unlockRes ≠ .done), zr _ (by decide : RPc.unlockExit ≠ .done),
    zr _ (by decide : RPc.unlockGate ≠ .done), zr _ (by decide : RPc.reading ≠ .done),
    zr _ (by decide : RPc.lockExit ≠ .done), zr _ (by decide : RPc.lockEntry ≠ .done),
    zw _ (by decide : WPc.incr ≠ .done), zw _ (by decide : WPc.testFirst ≠ .done),
    zw _ (by decide : WPc.lockGate ≠ .done), zw _ (by decide : WPc.unlockEntry ≠ .done),
    zw _ (by decide : WPc.decr ≠ .done), zw _ (by decide : WPc.testLast ≠ .done),
    zw _ (by decide : WPc.unlockGate ≠ .done), zw _ (by decide : WPc.unlockExit ≠ .done),
    zw _ (by decide : WPc.lockRes ≠ .done), zw _ (by decide : WPc.writing ≠ .done),
    zw _ (by decide : WPc.unlockRes ≠ .done), zw _ (by decide : WPc.lockExit ≠ .done),
    Nat.add_zero] at h1 h2 h3 h4 h9 h10 h11 h12 h13 h14
  clear h5 h6 h7 h8
  omega

theorem rw2_log_init : Log init := by
  constructor <;> simp [init, count, linesR, linesW, printedR, printedW, ROUNDS]

theorem rw2_log_reader (s s' : State) (i : Fin 5) (h : Log s) (hs : reader2 s i = some s') :
    Log s' := by
  obtain ⟨h1, h2, h3, h4, h5, h6⟩ := h
  have hl := le_count linesR s.rd i
  have h1i := h1 i
  have h3i := h3 i
  unfold reader2 at hs
  simp only [Task.next, ROUNDS] at hs
  split at hs
  all_goals rename_i hpc
  all_goals try split at hs
  all_goals simp [Semaphore.wait, Semaphore.signal] at hs
  all_goals first | subst hs | obtain ⟨hpos, rfl⟩ := hs
  all_goals simp only [hpc, linesR, printedR, ROUNDS, reduceCtorEq, false_iff, true_iff]
    at hl h1i h3i
  all_goals constructor
  all_goals first
    | exact h1 | exact h2 | exact h3 | exact h4 | exact h5 | exact h6
    | (intro j
       simp only [List.count_append, List.count_singleton, beq_iff_eq, reduceCtorEq, if_false,
         Nat.add_zero]
       first | exact h3 j | exact h4 j)
    | (intro j
       by_cases hj : j = i
       · subst hj
         simp [linesR, printedR, ROUNDS, List.count_append]
         omega
       · have hv : ¬ i.val = j.val := fun e => hj (Fin.ext e.symm)
         simp [Function.update_noteq hj, List.count_append, List.count_singleton, hv]
         first | exact h1 j | exact h3 j)
    | (simp [count_update_eq, linesR, printedR, hpc, List.countP_append, Event.isReading,
         Event.isWriting]
       first | exact h5 | exact h6 | omega)

theorem rw2_log_writer (s s' : State) (i : Fin 5) (h : Log s) (hs : writer2 s i = some s') :
    Log s' := by
  obtain ⟨h1, h2, h3, h4, h5, h6⟩ := h
  have hl := le_count linesW s.wr i
  have h2i := h2 i
  have h4i := h4 i
  unfold writer2 at hs
  simp only [Task.next, ROUNDS] at hs
  split at hs
  all_goals rename_i hpc
  all_goals try split at hs
  all_goals simp [Semaphore.wait, Semaphore.signal] at hs
  all_goals first | subst hs | obtain ⟨hpos, rfl⟩ := hs
  all_goals simp only [hpc, linesW, printedW, ROUNDS, reduceCtorEq, false_iff, true_iff]
    at hl h2i h4i
  all_goals constructor
  all_goals first
    | exact h1 | exact h2 | exact h3 | exact h4 | exact h5 | exact h6
    | (intro j
       simp only [List.count_append, List.count_singleton, beq_iff_eq, reduceCtorEq, if_false,
         Nat.add_zero]
       first | exact h3 j | exact h4 j)
    | (intro j
       by_cases hj : j = i
       · subst hj
         simp [linesW, printedW, ROUNDS, List.count_append]
         omega
       · have hv : ¬ i.val = j.val := fun e => hj (Fin.ext e.symm)
         simp [Function.update_noteq hj, List.count_append, List.count_singleton, hv]
         first | exact h2 j | exact h4 j)
    | (simp [count_update_eq, linesW, printedW, hpc, List.countP_append, Event.isReading,
         Event.isWriting]
       first | exact h5 | exact h6 | omega)

theorem rw2_log_reachable (s : State) (h : sys.Reachable s) : Log s := by
  refine System.reachable_induction sys Log rw2_log_init ?_ s h
  intro s t s' hs hst
  cases t with
  | reader i => exact rw2_log_reader s s' i hs hst
  | writer i => exact rw2_log_writer s s' i hs hst

theorem rw2_terminal_lines (s : State) (h : Log s) (ht : Terminal s) :
    s.out.countP Event.isReading = 20 ∧ s.out.countP Event.isWriting = 20 ∧
    ∀ i : Fin 5, s.out.count (Event.reading (i.val + 1)) = 4 ∧
      s.out.count (Event.writing (i.val + 1)) = 4 := by
  obtain ⟨h1, h2, h3, h4, h5, h6⟩ := h
  obtain ⟨tr, tw⟩ := ht
  have er : ∀ i, linesR (s.rd i) = 4 := fun i => by
    have := (h1 i).2.mp (tr i)
    simp [linesR, printedR, tr i, this]
  have ew : ∀ i, linesW (s.wr i) = 4 := fun i => by
    have := (h2 i).2.mp (tw i)
    simp [linesW, printedW, tw i, this]
  refine ⟨?_, ?_, fun i => ⟨?_, ?_⟩⟩
  · rw [h5]
    simp [count, er]
  · rw [h6]
    simp [count, ew]
  · rw [h3 i, er i]
  · rw [h4 i, ew i]

theorem rw2_reader_wr (s s' : State) (k : Fin 5) (hs : reader2 s k = some s') :
    s'.wr = s.wr := by
  unfold reader2 at hs
  simp only at hs
  split at hs
  all_goals try split at hs
  all_goals simp [Semaphore.wait] at hs
  all_goals first | subst hs | obtain ⟨hpos, rfl⟩ := hs
  all_goals rfl

theorem rw2_hist_writer (tr : List (State × Tid × State)) (s s' : State) (k j : Fin 5)
    (h : tr.countP (tookResource j) = (s.wr j).round + lockDone (s.wr j).pc)
    (hs : writer2 s k = some s') :
    (tr ++ [(s, Tid.writer k, s')]).countP (tookResource j)
      = (s'.wr j).round + lockDone (s'.wr j).pc := by
  unfold writer2 at hs
  simp only [Task.next, ROUNDS] at hs
  split at hs
  all_goals rename_i hpc
  all_goals try split at hs
  all_goals simp [Semaphore.wait, Semaphore.signal] at hs
  all_goals first | subst hs | obtain ⟨hpos, rfl⟩ := hs
  all_goals by_cases hj : j = k
  all_goals first
    | (subst hj
       simp only [hpc, lockDone] at h
       simp [tookResource, List.countP_append, List.countP_cons, lockDone, h] <;> omega)
    | (have hj' : ¬ k = j := fun e => hj e.symm
       simp only [Function.update_noteq hj, tookResource, List.countP_append, List.countP_cons,
         List.countP_nil, Tid.writer.injEq, hj', decide_False, Bool.false_and, Nat.add_zero,
         if_false, Bool.false_eq_true]
       exact h)

theorem rw2_hist_step (tr : List (sys.State × sys.Tid × sys.State)) (s : sys.State)
    (t : sys.Tid) (s' : sys.State) (h : Hist tr s) (hs : sys.step s t = some s') :
    Hist (tr ++ [(s, t, s')]) s' := by
  cases t with
  | reader k =>
    constructor
    intro i
    have e := rw2_reader_wr s s' k hs
    simp only [tookResource, List.countP_append, List.countP_cons, List.countP_nil,
      reduceCtorEq, decide_False, Bool.false_and, Nat.add_zero, if_false, Bool.false_eq_true, e]
    exact h.taken i
  | writer k => exact ⟨fun i => rw2_hist_writer tr s s' k i (h.taken i) hs⟩

theorem rw2_hist_run (sched : List Tid) (s : State)
    (h : sys.run init sched = some s) : Hist (sys.transitions init sched) s := by
  have h0 : Hist [] init := ⟨fun i => by simp [init, lockDone]⟩
  have := System.transitions_invariant sys Hist rw2_hist_step sched init s [] h0 h
  simpa using this

theorem rw2_writing_exclusive (s : State) (h : Inv s) (i : Fin 5)
    (hi : inWriting (s.wr i).pc = 1) :
    s.resource2.sem = 0 ∧ writing s = 1 ∧ readingNow s = 0 := by
  have hx := rw2_exclusion s h
  have hp : 1 ≤ writing s := by
    have a := le_count (fun t => if t.pc = WPc.writing then 1 else 0) s.wr i
    have b := le_count (fun t => if t.pc = WPc.unlockRes then 1 else 0) s.wr i
    simp only [writing, occ]
    cases hpc : (s.wr i).pc <;> simp [hpc, inWriting] at hi a b ⊢ <;> omega
  refine ⟨?_, ?_, ?_⟩ <;> omega

end RW2

theorem countI_update {α : Type} (g : Fin 5 → α → Nat) (f : Fin 5 → α) (i : Fin 5) (a : α) :
    countI (fun j => g j (Function.update f i a j)) + g i (f i)
      = countI (fun j => g j (f j)) + g i a := by
  fin_cases i <;> simp [countI, Function.update] <;> omega

theorem le_countI (g : Fin 5 → Nat) (i : Fin 5) : g i ≤ countI g := by
  fin_cases i <;> simp [countI] <;> omega

theorem add_le_countI (g : Fin 5 → Nat) {i j : Fin 5} (h : i ≠ j) : g i + g j ≤ countI g := by
  fin_cases i <;> fin_cases j <;> first | exact absurd rfl h | (simp [countI] <;> omega)

theorem left_ne_right : ∀ id : Fin 5, left id ≠ right id := by decide

theorem left_eq (id : Fin 5) : left id = id := rfl

theorem right_zero : right 0 = 1 := rfl

theorem right_one : right 1 = 2 := rfl

theorem right_two : right 2 = 3 := rfl

theorem right_three : right 3 = 4 := rfl

theorem right_four : right 4 = 0 := rfl

namespace DP1

theorem dp1_holders_update (s : State) (sticks : Fin 5 → Semaphore) (id : Fin 5) (t : Task PPc)
    (k : Fin 5) :
    holders { sticks1 := sticks, ph := Function.update s.ph id t } k
      = holders s k + holds id t k - holds id (s.ph id) k := by
  have := countI_update (fun j u => holds j u k) s.ph id t
  simp only [holders]
  omega

theorem dp1_holds_le (s : State) (id k : Fin 5) : holds id (s.ph id) k ≤ holders s k :=
  le_countI (fun j => holds j (s.ph j) k) id

theorem dp1_inv_init : Inv init := by
  constructor
  · intro k
    simp [init, holders, countI, holds, holdsLeft, holdsRight]
  · intro id
    simp [init]
  · intro id
    simp [init]

theorem dp1_forks_step (s s' : State) (id : Fin 5) (hf : ∀ k, (s.sticks1 k).sem + holders s k = 1)
    (hs : philosopher1 s id = some s') (k : Fin 5) :
    (s'.sticks1 k).sem + holders s' k = 1 := by
  have hne := left_ne_right id
  have hk := hf k
  have hle := dp1_holds_le s id k
  unfold philosopher1 at hs
  simp only [Task.next, ROUNDS] at hs
  split at hs
  all_goals rename_i hpc
  all_goals try split at hs
  all_goals simp [Semaphore.wait, Semaphore.signal] at hs
  all_goals first | subst hs | obtain ⟨hpos, rfl⟩ := hs
  all_goals simp only [dp1_holders_update, holds, hpc, holdsLeft, holdsRight, Function.update_apply]
    at hk hle ⊢
  all_goals by_cases h1 : k = left id
  all_goals by_cases h2 : k = right id
  all_goals first
    | exact absurd (h1.symm.trans h2) hne
    | (simp only [h1, h2, hne, hne.symm, if_true, if_false] at hk hle ⊢

       omega)

theorem dp1_path_step (s s' : State) (id : Fin 5)
    (hz : ∀ j, (s.ph j).pc = .rightFirst ∨ (s.ph j).pc = .leftSecond → j = 0)
    (ho : ∀ j, (s.ph j).pc = .leftFirst ∨ (s.ph j).pc = .rightSecond → j ≠ 0)
    (hs : philosopher1 s id = some s') (j : Fin 5) :
    ((s'.ph j).pc = .rightFirst ∨ (s'.ph j).pc = .leftSecond → j = 0) ∧
    ((s'.ph j).pc = .leftFirst ∨ (s'.ph j).pc = .rightSecond → j ≠ 0) := by
  have hzi := hz id
  have hoi := ho id
  have hzj := hz j
  have hoj := ho j
  unfold philosopher1 at hs
  simp only [Task.next, ROUNDS] at hs
  split at hs
  all_goals rename_i hpc
  all_goals try split at hs
  all_goals simp [Semaphore.wait, Semaphore.signal] at hs
  all_goals first | subst hs | obtain ⟨hpos, rfl⟩ := hs
  all_goals by_cases hj : j = id
  all_goals first
    | (subst hj
       simp_all [Fin.ext_iff])
    | (simp only [Function.update_noteq hj]
       exact ⟨hzj, hoj⟩)

theorem dp1_inv_step (s : sys.State) (id : sys.Tid) (s' : sys.State) (h : Inv s)
    (hs : sys.step s id = some s') : Inv s' :=
  ⟨fun k => dp1_forks_step s s' id h.forks hs k,
   fun j => (dp1_path_step s s' id h.zeroPath h.otherPath hs j).1,
   fun j => (dp1_path_step s s' id h.zeroPath h.otherPath hs j).2⟩

theorem dp1_inv_reachable (s : State) (h : sys.Reachable s) : Inv s :=
  System.reachable_induction sys Inv dp1_inv_init dp1_inv_step s h

theorem dp1_measure_step (s : sys.State) (id : sys.Tid) (s' : sys.State)
    (hs : sys.step s id = some s') : measure s' < measure s := by
  have hl := le_count remaining s.ph id
  change philosopher1 s id = some s' at hs
  unfold philosopher1 at hs
  simp only [Task.next, ROUNDS] at hs
  split at hs
  all_goals rename_i hpc
  all_goals try split at hs
  all_goals simp [Semaphore.wait, Semaphore.signal] at hs
  all_goals first | subst hs | obtain ⟨hpos, rfl⟩ := hs
  all_goals simp only [measure, count_update_eq, remaining, hpc, ROUNDS] at hl ⊢
  all_goals omega

theorem dp1_blocked (s : State) (hinv : Inv s) (id : Fin 5) (h : philosopher1 s id = none) :
    (finished (s.ph id).pc = 1 ∧ holdsLeft (s.ph id).pc = 0 ∧ holdsRight (s.ph id).pc = 0) ∨
    (id = 0 ∧ finished (s.ph id).pc = 0 ∧ holdsLeft (s.ph id).pc = 0 ∧
      holdsRight (s.ph id).pc = 0 ∧ (s.sticks1 (right id)).sem = 0) ∨
    (id = 0 ∧ finished (s.ph id).pc = 0 ∧ holdsLeft (s.ph id).pc = 0 ∧
      holdsRight (s.ph id).pc = 1 ∧ (s.sticks1 (left id)).sem = 0) ∨
    (id ≠ 0 ∧ finished (s.ph id).pc = 0 ∧ holdsLeft (s.ph id).pc = 0 ∧
      holdsRight (s.ph id).pc = 0 ∧ (s.sticks1 (left id)).sem = 0) ∨
    (id ≠ 0 ∧ finished (s.ph id).pc = 0 ∧ holdsLeft (s.ph id).pc = 1 ∧
      holdsRight (s.ph id).pc = 0 ∧ (s.sticks1 (right id)).sem = 0) := by
  have hz := hinv.zeroPath id
  have ho := hinv.otherPath id
  unfold philosopher1 at h
  simp only at h
  split at h
  all_goals rename_i hpc
  all_goals try split at h
  all_goals simp [Semaphore.wait] at h
  all_goals simp only [hpc, finished, holdsLeft, holdsRight, reduceCtorEq, true_or, or_true,
    forall_const, false_or, or_false] at hz ho ⊢
  all_goals simp_all

theorem dp1_finished_iff (p : PPc) : finished p = 1 ↔ p = .done := by
  cases p <;> simp [finished]

theorem dp1_holders_eq (s : State) :
    holders s 0 = holdsLeft (s.ph 0).pc + holdsRight (s.ph 4).pc ∧
    holders s 1 = holdsLeft (s.ph 1).pc + holdsRight (s.ph 0).pc ∧
    holders s 2 = holdsLeft (s.ph 2).pc + holdsRight (s.ph 1).pc ∧
    holders s 3 = holdsLeft (s.ph 3).pc + holdsRight (s.ph 2).pc ∧
    holders s 4 = holdsLeft (s.ph 4).pc + holdsRight (s.ph 3).pc := by
  refine ⟨?_, ?_, ?_, ?_, ?_⟩ <;>
    simp [holders, countI, holds, left_eq, right_zero, right_one, right_two, right_three,
      right_four] <;> omega

/-- A state of problem 3 satisfying the invariant in which no philosopher can
take a step is terminal. -/
theorem dp1_stuck_terminal (s : State) (hinv : Inv s) (hstuck : ∀ id, philosopher1 s id = none) :
    Terminal s := by
  have b0 := dp1_blocked s hinv 0 (hstuck 0)
  have b1 := dp1_blocked s hinv 1 (hstuck 1)
  have b2 := dp1_blocked s hinv 2 (hstuck 2)
  have b3 := dp1_blocked s hinv 3 (hstuck 3)
  have b4 := dp1_blocked s hinv 4 (hstuck 4)
  obtain ⟨e0, e1, e2, e3, e4⟩ := dp1_holders_eq s
  have f0 := hinv.forks 0
  have f1 := hinv.forks 1
  have f2 := hinv.forks 2
  have f3 := hinv.forks 3
  have f4 := hinv.forks 4
  rw [e0] at f0
  rw [e1] at f1
  rw [e2] at f2
  rw [e3] at f3
  rw [e4] at f4
  simp [left_eq, right_zero, right_one, right_two, right_three, right_four]
    at b0 b1 b2 b3 b4
  clear e0 e1 e2 e3 e4 hinv hstuck
  have d4 : finished (s.ph 4).pc = 1 := by clear * - b0 b3 b4 f0 f4; omega
  have d3 : finished (s.ph 3).pc = 1 := by clear * - b2 b3 b4 f3 f4 d4; omega
  have d2 : finished (s.ph 2).pc = 1 := by clear * - b1 b2 b3 f2 f3 d3; omega
  have d1 : finished (s.ph 1).pc = 1 := by clear * - b0 b1 b2 b4 f0 f1 f2 d2; omega
  have d0 : finished (s.ph 0).pc = 1 := by clear * - b0 b1 b4 f0 f1 d1; omega
  have d : finished (s.ph 0).pc = 1 ∧ finished (s.ph 1).pc = 1 ∧ finished (s.ph 2).pc = 1 ∧
      finished (s.ph 3).pc = 1 ∧ finished (s.ph 4).pc = 1 := ⟨d0, d1, d2, d3, d4⟩
  intro id
  fin_cases id
  · exact (dp1_finished_iff _).mp d.1
  · exact (dp1_finished_iff _).mp d.2.1
  · exact (dp1_finished_iff _).mp d.2.2.1
  · exact (dp1_finished_iff _).mp d.2.2.2.1
  · exact (dp1_finished_iff _).mp d.2.2.2.2

theorem dp1_enabled_or_terminal (s : State) (h : sys.Reachable s) : Terminal s ∨ sys.Enabled s := by
  by_cases he : sys.Enabled s
  · exact Or.inr he
  · exact Or.inl (dp1_stuck_terminal s (dp1_inv_reachable s h) (System.not_enabled sys s he))

theorem dp1_hist_thread (tr : List (State × Fin 5 × State)) (s s' : State) (id j : Fin 5)
    (h1 : (s.ph j).round ≤ ROUNDS ∧ ((s.ph j).pc = .done ↔ (s.ph j).round = ROUNDS))
    (h2 : tr.countP (tookFork j (left j)) = (s.ph j).round + leftDone (s.ph j).pc)
    (h3 : tr.countP (tookFork j (right j)) = (s.ph j).round + rightDone (s.ph j).pc)
    (hs : philosopher1 s id = some s') :
    ((s'.ph j).round ≤ ROUNDS ∧ ((s'.ph j).pc = .done ↔ (s'.ph j).round = ROUNDS)) ∧
    (tr ++ [(s, id, s')]).countP (tookFork j (left j))
      = (s'.ph j).round + leftDone (s'.ph j).pc ∧
    (tr ++ [(s, id, s')]).countP (tookFork j (right j))
      = (s'.ph j).round + rightDone (s'.ph j).pc := by
  have hne := left_ne_right j
  unfold philosopher1 at hs
  simp only [Task.next, ROUNDS] at hs
  split at hs
  all_goals rename_i hpc
  all_goals try split at hs
  all_goals simp [Semaphore.wait, Semaphore.signal] at hs
  all_goals first | subst hs | obtain ⟨hpos, rfl⟩ := hs
  all_goals by_cases hj : j = id
  all_goals first
    | (subst hj
       simp only [hpc, leftDone, rightDone, ROUNDS, reduceCtorEq, false_iff, true_iff] at h1 h2 h3
       simp [tookFork, List.countP_append, List.countP_cons, leftDone, rightDone, ROUNDS, hne,
         hne.symm, h2, h3]
       omega)
    | (have hj' : ¬ id = j := fun e => hj e.symm
       simp only [Function.update_noteq hj, tookFork, List.countP_append, List.countP_cons,
         List.countP_nil, hj', decide_False, Bool.false_and, Nat.add_zero, if_false,
         Bool.false_eq_true]
       exact ⟨h1, h2, h3⟩)

theorem dp1_hist_step (tr : List (sys.State × sys.Tid × sys.State)) (s : sys.State) (id : sys.Tid)
    (s' : sys.State) (h : Hist tr s) (hs : sys.step s id = some s') :
    Hist (tr ++ [(s, id, s')]) s' :=
  ⟨fun j => (dp1_hist_thread tr s s' id j (h.rounds j) (h.leftTaken j) (h.rightTaken j) hs).1,
   fun j => (dp1_hist_thread tr s s' id j (h.rounds j) (h.leftTaken j) (h.rightTaken j) hs).2.1,
   fun j => (dp1_hist_thread tr s s' id j (h.rounds j) (h.leftTaken j) (h.rightTaken j) hs).2.2⟩

theorem dp1_hist_init : Hist [] init := by
  constructor <;> intro id <;> simp [init, leftDone, rightDone, ROUNDS]

theorem dp1_hist_run (sched : List (Fin 5)) (s : State)
    (h : sys.run init sched = some s) : Hist (sys.transitions init sched) s := by
  have := System.transitions_invariant sys Hist dp1_hist_step sched init s [] dp1_hist_init h
  simpa using this

theorem dp1_measure_exact (s : sys.State) (id : sys.Tid) (s' : sys.State)
    (hs : sys.step s id = some s') : measure s' + 1 = measure s := by
  have hl := le_count remaining s.ph id
  change philosopher1 s id = some s' at hs
  unfold philosopher1 at hs
  simp only [Task.next, ROUNDS] at hs
  split at hs
  all_goals rename_i hpc
  all_goals try split at hs
  all_goals simp [Semaphore.wait, Semaphore.signal] at hs
  all_goals first | subst hs | obtain ⟨hpos, rfl⟩ := hs
  all_goals simp only [measure, count_update_eq, remaining, hpc, ROUNDS] at hl ⊢
  all_goals omega

theorem dp1_terminal_measure (tr : List (State × Fin 5 × State)) (s : State) (h : Hist tr s)
    (ht : Terminal s) : measure s = 0 := by
  have e : ∀ id, remaining (s.ph id) = 0 := fun id => by
    have := (h.rounds id).2.mp (ht id)
    simp [remaining, ht id, this, ROUNDS]
  simp [measure, count, e]

theorem dp1_eating (s : State) (h : Inv s) (id : Fin 5) (he : (s.ph id).pc = .eat) :
    (s.sticks1 (left id)).sem = 0 ∧ (s.sticks1 (right id)).sem = 0 := by
  have hne := left_ne_right id
  have l1 := dp1_holds_le s id (left id)
  have l2 := dp1_holds_le s id (right id)
  have f1 := h.forks (left id)
  have f2 := h.forks (right id)
  simp only [holds, he, holdsLeft, holdsRight, hne, hne.symm, if_true, if_false] at l1 l2
  constructor <;> omega

end DP1

theorem count_mono {α : Type} (g h : α → Nat) (f : Fin 5 → α) (hgh : ∀ a, g a ≤ h a) :
    count g f ≤ count h f := by
  have h0 := hgh (f 0)
  have h1 := hgh (f 1)
  have h2 := hgh (f 2)
  have h3 := hgh (f 3)
  have h4 := hgh (f 4)
  simp only [count]
  omega

namespace DP2

theorem dp2_holders_update (s : State) (sticks : Fin 5 → Semaphore) (h : Semaphore) (id : Fin 5)
    (t : Task PPc) (k : Fin 5) :
    holders { sticks2 := sticks, host := h, ph := Function.update s.ph id t } k
      = holders s k + holds id t k - holds id (s.ph id) k := by
  have := countI_update (fun j u => holds j u k) s.ph id t
  simp only [holders]
  omega

theorem dp2_holds_le (s : State) (id k : Fin 5) : holds id (s.ph id) k ≤ holders s k :=
  le_countI (fun j => holds j (s.ph j) k) id

theorem dp2_inv_init : Inv init := by
  constructor
  · intro k
    simp [init, holders, countI, holds, holdsLeft, holdsRight]
  · simp [init, admittedCount, count, admittedW, admitted]

theorem dp2_forks_step (s s' : State) (id : Fin 5) (hf : ∀ k, (s.sticks2 k).sem + holders s k = 1)
    (hs : philosopher2 s id = some s') (k : Fin 5) :
    (s'.sticks2 k).sem + holders s' k = 1 := by
  have hne := left_ne_right id
  have hk := hf k
  have hle := dp2_holds_le s id k
  unfold philosopher2 at hs
  simp only [Task.next, ROUNDS] at hs
  split at hs
  all_goals rename_i hpc
  all_goals try split at hs
  all_goals simp [Semaphore.wait, Semaphore.signal] at hs
  all_goals first | subst hs | obtain ⟨hpos, rfl⟩ := hs
  all_goals simp only [dp2_holders_update, holds, hpc, holdsLeft, holdsRight, Function.update_apply]
    at hk hle ⊢
  all_goals by_cases h1 : k = left id
  all_goals by_cases h2 : k = right id
  all_goals first
    | exact absurd (h1.symm.trans h2) hne
    | (simp only [h1, h2, hne, hne.symm, if_true, if_false] at hk hle ⊢
       omega)

theorem dp2_permits_step (s s' : State) (id : Fin 5)
    (hp : s.host.sem + admittedCount s = 4)
    (hs : philosopher2 s id = some s') :
    s'.host.sem + admittedCount s' = 4 := by
  have hl := le_count admittedW s.ph id
  simp only [admittedCount] at hp ⊢
  unfold philosopher2 at hs
  simp only [Task.next, ROUNDS] at hs
  split at hs
  all_goals rename_i hpc
  all_goals try split at hs
  all_goals simp [Semaphore.wait, Semaphore.signal] at hs
  all_goals first | subst hs | obtain ⟨hpos, rfl⟩ := hs
  all_goals simp only [count_update_eq, admittedW, admitted, hpc] at hl ⊢
  all_goals omega

theorem dp2_inv_step (s : sys.State) (id : sys.Tid) (s' : sys.State) (h : Inv s)
    (hs : sys.step s id = some s') : Inv s' :=
  ⟨fun k => dp2_forks_step s s' id h.forks hs k, dp2_permits_step s s' id h.permits hs⟩

theorem dp2_inv_reachable (s : State) (h : sys.Reachable s) : Inv s :=
  System.reachable_induction sys Inv dp2_inv_init dp2_inv_step s h

theorem dp2_measure_step (s : sys.State) (id : sys.Tid) (s' : sys.State)
    (hs : sys.step s id = some s') : measure s' < measure s := by
  have hl := le_count remaining s.ph id
  change philosopher2 s id = some s' at hs
  unfold philosopher2 at hs
  simp only [Task.next, ROUNDS] at hs
  split at hs
  all_goals rename_i hpc
  all_goals try split at hs
  all_goals simp [Semaphore.wait, Semaphore.signal] at hs
  all_goals first | subst hs | obtain ⟨hpos, rfl⟩ := hs
  all_goals simp only [measure, count_update_eq, remaining, hpc, ROUNDS] at hl ⊢
  all_goals omega

theorem dp2_blocked (s : State) (id : Fin 5) (h : philosopher2 s id = none) :
    (finished (s.ph id).pc = 1 ∧ holdsLeft (s.ph id).pc = 0 ∧ holdsRight (s.ph id).pc = 0 ∧
      admitted (s.ph id).pc = 0) ∨
    (finished (s.ph id).pc = 0 ∧ holdsLeft (s.ph id).pc = 0 ∧ holdsRight (s.ph id).pc = 0 ∧
      admitted (s.ph id).pc = 0 ∧ s.host.sem = 0) ∨
    (finished (s.ph id).pc = 0 ∧ holdsLeft (s.ph id).pc = 0 ∧ holdsRight (s.ph id).pc = 0 ∧
      admitted (s.ph id).pc = 1 ∧ (s.sticks2 (left id)).sem = 0) ∨
    (finished (s.ph id).pc = 0 ∧ holdsLeft (s.ph id).pc = 1 ∧ holdsRight (s.ph id).pc = 0 ∧
      admitted (s.ph id).pc = 1 ∧ (s.sticks2 (right id)).sem = 0) := by
  unfold philosopher2 at h
  simp only at h
  split at h
  all_goals rename_i hpc
  all_goals simp [Semaphore.wait] at h
  all_goals simp only [hpc, finished, holdsLeft, holdsRight, admitted]
  all_goals simp [h]

theorem dp2_finished_iff (p : PPc) : finished p = 1 ↔ p = .done := by
  cases p <;> simp [finished]

theorem dp2_holders_eq (s : State) :
    holders s 0 = holdsLeft (s.ph 0).pc + holdsRight (s.ph 4).pc ∧
    holders s 1 = holdsLeft (s.ph 1).pc + holdsRight (s.ph 0).pc ∧
    holders s 2 = holdsLeft (s.ph 2).pc + holdsRight (s.ph 1).pc ∧
    holders s 3 = holdsLeft (s.ph 3).pc + holdsRight (s.ph 2).pc ∧
    holders s 4 = holdsLeft (s.ph 4).pc + holdsRight (s.ph 3).pc := by
  refine ⟨?_, ?_, ?_, ?_, ?_⟩ <;>
    simp [holders, countI, holds, left_eq, right_zero, right_one, right_two, right_three,
      right_four] <;> omega

/-- A state of problem 4 satisfying the invariant in which no philosopher can
take a step is terminal. -/
theorem dp2_stuck_terminal (s : State) (hinv : Inv s) (hstuck : ∀ id, philosopher2 s id = none) :
    Terminal s := by
  have b0 := dp2_blocked s 0 (hstuck 0)
  have b1 := dp2_blocked s 1 (hstuck 1)
  have b2 := dp2_blocked s 2 (hstuck 2)
  have b3 := dp2_blocked s 3 (hstuck 3)
  have b4 := dp2_blocked s 4 (hstuck 4)
  obtain ⟨e0, e1, e2, e3, e4⟩ := dp2_holders_eq s
  have f0 := hinv.forks 0
  have f1 := hinv.forks 1
  have f2 := hinv.forks 2
  have f3 := hinv.forks 3
  have f4 := hinv.forks 4
  have hp := hinv.permits
  rw [e0] at f0
  rw [e1] at f1
  rw [e2] at f2
  rw [e3] at f3
  rw [e4] at f4
  simp only [admittedCount, count, admittedW] at hp
  simp only [left_eq, right_zero, right_one, right_two, right_three, right_four]
    at b0 b1 b2 b3 b4
  clear e0 e1 e2 e3 e4 hinv hstuck
  have l0 : admitted (s.ph 0).pc = 0 → admitted (s.ph 4).pc = 0 := by
    clear * - b0 b4 b3 f0 f4; omega
  have l4 : admitted (s.ph 4).pc = 0 → admitted (s.ph 3).pc = 0 := by
    clear * - b4 b3 b2 f4 f3; omega
  have l3 : admitted (s.ph 3).pc = 0 → admitted (s.ph 2).pc = 0 := by
    clear * - b3 b2 b1 f3 f2; omega
  have l2 : admitted (s.ph 2).pc = 0 → admitted (s.ph 1).pc = 0 := by
    clear * - b2 b1 b0 f2 f1; omega
  have l1 : admitted (s.ph 1).pc = 0 → admitted (s.ph 0).pc = 0 := by
    clear * - b1 b0 b4 f1 f0; omega
  have u0 : admitted (s.ph 0).pc ≤ 1 := by clear * - b0; omega
  have u1 : admitted (s.ph 1).pc ≤ 1 := by clear * - b1; omega
  have u2 : admitted (s.ph 2).pc ≤ 1 := by clear * - b2; omega
  have u3 : admitted (s.ph 3).pc ≤ 1 := by clear * - b3; omega
  have u4 : admitted (s.ph 4).pc ≤ 1 := by clear * - b4; omega
  have a : admitted (s.ph 0).pc = 0 ∧ admitted (s.ph 1).pc = 0 ∧ admitted (s.ph 2).pc = 0 ∧
      admitted (s.ph 3).pc = 0 ∧ admitted (s.ph 4).pc = 0 ∧ s.host.sem = 4 := by
    clear * - l0 l1 l2 l3 l4 u0 u1 u2 u3 u4 hp; omega
  have d0 : finished (s.ph 0).pc = 1 := by clear * - b0 a; omega
  have d1 : finished (s.ph 1).pc = 1 := by clear * - b1 a; omega
  have d2 : finished (s.ph 2).pc = 1 := by clear * - b2 a; omega
  have d3 : finished (s.ph 3).pc = 1 := by clear * - b3 a; omega
  have d4 : finished (s.ph 4).pc = 1 := by clear * - b4 a; omega
  have d : finished (s.ph 0).pc = 1 ∧ finished (s.ph 1).pc = 1 ∧ finished (s.ph 2).pc = 1 ∧
      finished (s.ph 3).pc = 1 ∧ finished (s.ph 4).pc = 1 := ⟨d0, d1, d2, d3, d4⟩
  intro id
  fin_cases id
  · exact (dp2_finished_iff _).mp d.1
  · exact (dp2_finished_iff _).mp d.2.1
  · exact (dp2_finished_iff _).mp d.2.2.1
  · exact (dp2_finished_iff _).mp d.2.2.2.1
  · exact (dp2_finished_iff _).mp d.2.2.2.2

theorem dp2_enabled_or_terminal (s : State) (h : sys.Reachable s) : Terminal s ∨ sys.Enabled s := by
  by_cases he : sys.Enabled s
  · exact Or.inr he
  · exact Or.inl (dp2_stuck_terminal s (dp2_inv_reachable s h) (System.not_enabled sys s he))

theorem dp2_hist_thread (tr : List (State × Fin 5 × State)) (s s' : State) (id j : Fin 5)
    (h1 : (s.ph j).round ≤ ROUNDS ∧ ((s.ph j).pc = .done ↔ (s.ph j).round = ROUNDS))
    (h2 : tr.countP (tookFork j (left j)) = (s.ph j).round + leftDone (s.ph j).pc)
    (h3 : tr.countP (tookFork j (right j)) = (s.ph j).round + rightDone (s.ph j).pc)
    (h4 : tr.countP (tookHost j) = (s.ph j).round + hostDone (s.ph j).pc)
    (hs : philosopher2 s id = some s') :
    ((s'.ph j).round ≤ ROUNDS ∧ ((s'.ph j).pc = .done ↔ (s'.ph j).round = ROUNDS)) ∧
    (tr ++ [(s, id, s')]).countP (tookFork j (left j))
      = (s'.ph j).round + leftDone (s'.ph j).pc ∧
    (tr ++ [(s, id, s')]).countP (tookFork j (right j))
      = (s'.ph j).round + rightDone (s'.ph j).pc ∧
    (tr ++ [(s, id, s')]).countP (tookHost j) = (s'.ph j).round + hostDone (s'.ph j).pc := by
  have hne := left_ne_right j
  unfold philosopher2 at hs
  simp only [Task.next, ROUNDS] at hs
  split at hs
  all_goals rename_i hpc
  all_goals try split at hs
  all_goals simp [Semaphore.wait, Semaphore.signal] at hs
  all_goals first | subst hs | obtain ⟨hpos, rfl⟩ := hs
  all_goals by_cases hj : j = id
  all_goals first
    | (subst hj
       simp only [hpc, leftDone, rightDone, hostDone, ROUNDS, reduceCtorEq, false_iff, true_iff]
         at h1 h2 h3 h4
       simp [tookFork, tookHost, List.countP_append, List.countP_cons, leftDone, rightDone,
         hostDone, ROUNDS, hne, hne.symm, h2, h3, h4]
       omega)
    | (have hj' : ¬ id = j := fun e => hj e.symm
       simp only [Function.update_noteq hj, tookFork, tookHost, List.countP_append,
         List.countP_cons, List.countP_nil, hj', decide_False, Bool.false_and, Nat.add_zero,
         if_false, Bool.false_eq_true]
       exact ⟨h1, h2, h3, h4⟩)

theorem dp2_hist_step (tr : List (sys.State × sys.Tid × sys.State)) (s : sys.State) (id : sys.Tid)
    (s' : sys.State) (h : Hist tr s) (hs : sys.step s id = some s') :
    Hist (tr ++ [(s, id, s')]) s' :=
  ⟨fun j => (dp2_hist_thread tr s s' id j (h.rounds j) (h.leftTaken j) (h.rightTaken j)
      (h.hostTaken j) hs).1,
   fun j => (dp2_hist_thread tr s s' id j (h.rounds j) (h.leftTaken j) (h.rightTaken j)
      (h.hostTaken j) hs).2.1,
   fun j => (dp2_hist_thread tr s s' id j (h.rounds j) (h.leftTaken j) (h.rightTaken j)
      (h.hostTaken j) hs).2.2.1,
   fun j => (dp2_hist_thread tr s s' id j (h.rounds j) (h.leftTaken j) (h.rightTaken j)
      (h.hostTaken j) hs).2.2.2⟩

theorem dp2_hist_init : Hist [] init := by
  constructor <;> intro id <;> simp [init, leftDone, rightDone, hostDone, ROUNDS]

theorem dp2_hist_run (sched : List (Fin 5)) (s : State)
    (h : sys.run init sched = some s) : Hist (sys.transitions init sched) s := by
  have := System.transitions_invariant sys Hist dp2_hist_step sched init s [] dp2_hist_init h
  simpa using this

theorem dp2_measure_exact (s : sys.State) (id : sys.Tid) (s' : sys.State)
    (hs : sys.step s id = some s') : measure s' + 1 = measure s := by
  have hl := le_count remaining s.ph id
  change philosopher2 s id = some s' at hs
  unfold philosopher2 at hs
  simp only [Task.next, ROUNDS] at hs
  split at hs
  all_goals rename_i hpc
  all_goals try split at hs
  all_goals simp [Semaphore.wait, Semaphore.signal] at hs
  all_goals first | subst hs | obtain ⟨hpos, rfl⟩ := hs
  all_goals simp only [measure, count_update_eq, remaining, hpc, ROUNDS] at hl ⊢
  all_goals omega

theorem dp2_terminal_measure (tr : List (State × Fin 5 × State)) (s : State) (h : Hist tr s)
    (ht : Terminal s) : measure s = 0 := by
  have e : ∀ id, remaining (s.ph id) = 0 := fun id => by
    have := (h.rounds id).2.mp (ht id)
    simp [remaining, ht id, this, ROUNDS]
  simp [measure, count, e]

theorem dp2_eating (s : State) (h : Inv s) (id : Fin 5) (he : (s.ph id).pc = .eat) :
    (s.sticks2 (left id)).sem = 0 ∧ (s.sticks2 (right id)).sem = 0 := by
  have hne := left_ne_right id
  have l1 := dp2_holds_le s id (left id)
  have l2 := dp2_holds_le s id (right id)
  have f1 := h.forks (left id)
  have f2 := h.forks (right id)
  simp only [holds, he, holdsLeft, holdsRight, hne, hne.symm, if_true, if_false] at l1 l2
  constructor <;> omega

end DP2

/-! ## The claims -/

/-- Claim C1 (readers-writers mutual exclusion).  In every reachable state of
variant 1 and of variant 2, at most one writer is in its writing region, and
when a writer is in its writing region no reader is in its reading region. -/
theorem rw_mutual_exclusion :
    (∀ s, RW1.sys.Reachable s →
      RW1.writing s ≤ 1 ∧ (RW1.writing s = 0 ∨ RW1.readingNow s = 0)) ∧
    (∀ s, RW2.sys.Reachable s →
      RW2.writing s ≤ 1 ∧ (RW2.writing s = 0 ∨ RW2.readingNow s = 0)) := by
  constructor
  · intro s h
    obtain ⟨h1, h2, h3, h4, h5, h6, h7⟩ := RW1.rw1_inv_reachable s h
    simp only [RW1.readingNow] at *
    constructor <;> omega
  · intro s h
    have := RW2.rw2_exclusion s (RW2.rw2_inv_reachable s h)
    omega

/-- Claim C1 at the states reached by `RW1.demoSchedule` (writer 1 is in its
writing region while reader 1 is in its entry section) and by
`RW2.writeSchedule` (writer 1 is in its writing region). -/
theorem rw_mutual_exclusion_witness :
    (RW1.sys.Reachable (RW1.sys.after RW1.demoSchedule) ∧
      RW1.writing (RW1.sys.after RW1.demoSchedule) ≤ 1 ∧
      (RW1.writing (RW1.sys.after RW1.demoSchedule) = 0 ∨
        RW1.readingNow (RW1.sys.after RW1.demoSchedule) = 0)) ∧
    (RW2.sys.Reachable (RW2.sys.after RW2.writeSchedule) ∧
      RW2.writing (RW2.sys.after RW2.writeSchedule) ≤ 1 ∧
      (RW2.writing (RW2.sys.after RW2.writeSchedule) = 0 ∨
        RW2.readingNow (RW2.sys.after RW2.writeSchedule) = 0)) :=
  ⟨⟨⟨RW1.demoSchedule, rfl⟩, rw_mutual_exclusion.1 _ ⟨RW1.demoSchedule, rfl⟩⟩,
   ⟨⟨RW2.writeSchedule, rfl⟩, rw_mutual_exclusion.2 _ ⟨RW2.writeSchedule, rfl⟩⟩⟩

/-- Claim C2 (fork mutual exclusion).  In every reachable state of both
philosopher variants and for every fork `k`, at most one philosopher holds
fork `k`, the permit count of the fork is 0 or 1 and equals 1 minus the
number of holders, and two philosophers holding fork `k` are the same. -/
theorem fork_mutual_exclusion :
    (∀ s, DP1.sys.Reachable s → ∀ k : Fin 5,
      DP1.holders s k ≤ 1 ∧ (s.sticks1 k).sem ≤ 1 ∧ (s.sticks1 k).sem = 1 - DP1.holders s k ∧
      ∀ i j, DP1.holds i (s.ph i) k = 1 → DP1.holds j (s.ph j) k = 1 → i = j) ∧
    (∀ s, DP2.sys.Reachable s → ∀ k : Fin 5,
      DP2.holders s k ≤ 1 ∧ (s.sticks2 k).sem ≤ 1 ∧ (s.sticks2 k).sem = 1 - DP2.holders s k ∧
      ∀ i j, DP2.holds i (s.ph i) k = 1 → DP2.holds j (s.ph j) k = 1 → i = j) := by
  constructor
  · intro s h k
    have hk := (DP1.dp1_inv_reachable s h).forks k
    refine ⟨by omega, by omega, by omega, ?_⟩
    intro i j hi hj
    by_contra hij
    have := add_le_countI (fun id => DP1.holds id (s.ph id) k) hij
    simp only [hi, hj] at this
    have e : DP1.holders s k = countI (fun id => DP1.holds id (s.ph id) k) := rfl
    omega
  · intro s h k
    have hk := (DP2.dp2_inv_reachable s h).forks k
    refine ⟨by omega, by omega, by omega, ?_⟩
    intro i j hi hj
    by_contra hij
    have := add_le_countI (fun id => DP2.holds id (s.ph id) k) hij
    simp only [hi, hj] at this
    have e : DP2.holders s k = countI (fun id => DP2.holds id (s.ph id) k) := rfl
    omega

/-- Claim C2 at the states reached by `DP1.demoSchedule` (philosopher 0 holds
fork 1) and by `DP2.demoSchedule` (philosopher 0 holds fork 0). -/
theorem fork_mutual_exclusion_witness :
    (DP1.sys.Reachable (DP1.sys.after DP1.demoSchedule) ∧
      DP1.holders (DP1.sys.after DP1.demoSchedule) 1 ≤ 1 ∧
      ((DP1.sys.after DP1.demoSchedule).sticks1 1).sem
        = 1 - DP1.holders (DP1.sys.after DP1.demoSchedule) 1) ∧
    (DP2.sys.Reachable (DP2.sys.after DP2.demoSchedule) ∧
      DP2.holders (DP2.sys.after DP2.demoSchedule) 0 ≤ 1 ∧
      ((DP2.sys.after DP2.demoSchedule).sticks2 0).sem
        = 1 - DP2.holders (DP2.sys.after DP2.demoSchedule) 0) :=
  ⟨⟨⟨DP1.demoSchedule, rfl⟩,
    (fork_mutual_exclusion.1 _ ⟨DP1.demoSchedule, rfl⟩ 1).1,
    (fork_mutual_exclusion.1 _ ⟨DP1.demoSchedule, rfl⟩ 1).2.2.1⟩,
   ⟨⟨DP2.demoSchedule, rfl⟩,
    (fork_mutual_exclusion.2 _ ⟨DP2.demoSchedule, rfl⟩ 0).1,
    (fork_mutual_exclusion.2 _ ⟨DP2.demoSchedule, rfl⟩ 0).2.2.1⟩⟩

/-- Claim C3 fails as stated.  After `RW2.raceSchedule` the counter `writers2`
is 1 and `readers2` is 0, yet reader 1 is at `readers2++` and its step is
enabled; taking it raises `readers2` from 0 to 1 while `writers2` is 1. -/
theorem writer_priority_counterexample :
    RW2.sys.run RW2.init RW2.raceSchedule = some (RW2.sys.after RW2.raceSchedule) ∧
    1 ≤ (RW2.sys.after RW2.raceSchedule).writers2 ∧
    (RW2.sys.after RW2.raceSchedule).readers2 = 0 ∧
    ((RW2.sys.after RW2.raceSchedule).rd 0).pc = RW2.RPc.incr ∧
    (RW2.step (RW2.sys.after RW2.raceSchedule) (RW2.Tid.reader 0)).isSome = true ∧
    (RW2.sys.after (RW2.raceSchedule ++ [RW2.Tid.reader 0])).readers2 = 1 ∧
    (RW2.sys.after (RW2.raceSchedule ++ [RW2.Tid.reader 0])).writers2 = 1 := by
  refine ⟨rfl, ?_, ?_, ?_, ?_, ?_, ?_⟩ <;> decide

/-- Claim C3, amended.  In every reachable state of variant 2 in which
`writers2 >= 1` and the first writer has completed its `try_read.wait()`
(`writers2 >= 2`, or `writers2 = 1` and no writer is at the test
`writers2 == 1` or at the `try_read.wait()` that follows it), no reader is
between its `try_read.wait()` and its `try_read.signal()`; in particular no
reader is at `readers2++`, so no step raising `readers2` is enabled. -/
theorem writer_priority_gate (s : RW2.State) (h : RW2.sys.Reachable s)
    (hw : 2 ≤ s.writers2 ∨ (s.writers2 = 1 ∧ occ s.wr .testFirst + occ s.wr .lockGate = 0)) :
    RW2.gated s = 0 ∧ ∀ i, (s.rd i).pc ≠ .incr := by
  obtain ⟨h1, h2, h3, h4, h5, h6, h7, h8, h9, h10, h11, h12, h13, h14⟩ :=
    RW2.rw2_inv_reachable s h
  have hg : RW2.gated s = 0 := by
    clear h1 h2 h3 h5 h6 h7 h8 h9 h10 h11
    omega
  refine ⟨hg, fun i hi => ?_⟩
  have := occ_pos hi
  simp only [RW2.gated] at hg
  omega

/-- Claim C3, amended, at the state reached by `RW2.gateSchedule`. -/
theorem writer_priority_gate_witness :
    RW2.sys.Reachable (RW2.sys.after RW2.gateSchedule) ∧
    (2 ≤ (RW2.sys.after RW2.gateSchedule).writers2 ∨
      ((RW2.sys.after RW2.gateSchedule).writers2 = 1 ∧
        occ (RW2.sys.after RW2.gateSchedule).wr .testFirst
          + occ (RW2.sys.after RW2.gateSchedule).wr .lockGate = 0)) ∧
    RW2.gated (RW2.sys.after RW2.gateSchedule) = 0 :=
  ⟨⟨RW2.gateSchedule, rfl⟩, Or.inr (by decide),
   (writer_priority_gate _ ⟨RW2.gateSchedule, rfl⟩ (Or.inr (by decide))).1⟩

/-- Claim C4 (deadlock freedom, asymmetric philosophers).  Along every execution
the steps taken plus the statements left are 160, every philosopher has taken
its left fork and its right fork once per completed round plus once when it
is past that wait in the current round, a philosopher about to eat holds
both forks, philosopher 0 never has taken its left fork more often than its
right fork, and the other philosophers never their right fork more often
than their left fork.  Every reachable state has an enabled philosopher or
is the terminal state, which is reached after exactly 160 steps with every
philosopher at the end of its 4th round, having taken each of its forks 4
times.  Every step decreases the statements left by one, there is no
infinite execution, and some execution reaches the terminal state. -/
theorem dp1_deadlock_free :
    (∀ sched s, DP1.sys.run DP1.init sched = some s →
      sched.length ≤ 160 ∧ sched.length + DP1.measure s = 160 ∧
      (∀ id, (s.ph id).round ≤ 4 ∧
        (DP1.sys.transitions DP1.init sched).countP (DP1.tookFork id (left id))
          = (s.ph id).round + DP1.leftDone (s.ph id).pc ∧
        (DP1.sys.transitions DP1.init sched).countP (DP1.tookFork id (right id))
          = (s.ph id).round + DP1.rightDone (s.ph id).pc) ∧
      (∀ id, (s.ph id).pc = DP1.PPc.eat →
        (s.sticks1 (left id)).sem = 0 ∧ (s.sticks1 (right id)).sem = 0) ∧
      ((DP1.sys.transitions DP1.init sched).countP (DP1.tookFork 0 (left 0))
        ≤ (DP1.sys.transitions DP1.init sched).countP (DP1.tookFork 0 (right 0))) ∧
      (∀ id, id ≠ 0 →
        (DP1.sys.transitions DP1.init sched).countP (DP1.tookFork id (right id))
          ≤ (DP1.sys.transitions DP1.init sched).countP (DP1.tookFork id (left id))) ∧
      (DP1.sys.Enabled s ∨
        (DP1.Terminal s ∧ sched.length = 160 ∧
          ∀ id, (s.ph id).round = 4 ∧
            (DP1.sys.transitions DP1.init sched).countP (DP1.tookFork id (left id)) = 4 ∧
            (DP1.sys.transitions DP1.init sched).countP (DP1.tookFork id (right id)) = 4))) ∧
    (∀ s id s', DP1.philosopher1 s id = some s' → DP1.measure s' + 1 = DP1.measure s) ∧
    (∀ σ : Nat → DP1.State, ¬ ∀ n, ∃ id, DP1.philosopher1 (σ n) id = some (σ (n + 1))) ∧
    (∃ sched s, DP1.sys.run DP1.init sched = some s ∧ DP1.Terminal s) := by
  refine ⟨?_, DP1.dp1_measure_exact, ?_, ?_⟩
  · intro sched s h
    have hh := DP1.dp1_hist_run sched s h
    have hinv := DP1.dp1_inv_reachable s ⟨sched, h⟩
    have hlen := System.run_length_exact DP1.sys DP1.measure DP1.dp1_measure_exact sched
      DP1.init s h
    have e : DP1.measure DP1.init = 160 := by
      simp [DP1.measure, DP1.init, count, DP1.remaining, ROUNDS]
    refine ⟨by omega, by omega, fun id => ⟨(hh.rounds id).1, hh.leftTaken id, hh.rightTaken id⟩,
      fun id he => DP1.dp1_eating s hinv id he, ?_, ?_, ?_⟩
    · rw [hh.leftTaken 0, hh.rightTaken 0]
      have ho := hinv.otherPath 0
      cases hpc : (s.ph 0).pc <;> simp [hpc, DP1.leftDone, DP1.rightDone] at ho ⊢
    · intro id hid
      rw [hh.leftTaken id, hh.rightTaken id]
      have hz := hinv.zeroPath id
      cases hpc : (s.ph id).pc <;> simp [hpc, DP1.leftDone, DP1.rightDone, hid] at hz ⊢
    rcases DP1.dp1_enabled_or_terminal s ⟨sched, h⟩ with ht | he
    · right
      have hm := DP1.dp1_terminal_measure _ s hh ht
      refine ⟨ht, by omega, fun id => ?_⟩
      have hr := (hh.rounds id).2.mp (ht id)
      have h2 := hh.leftTaken id
      have h3 := hh.rightTaken id
      simp only [ht id, DP1.leftDone, DP1.rightDone, hr, ROUNDS] at h2 h3
      exact ⟨hr, h2, h3⟩
    · exact Or.inl he
  · exact System.no_infinite_run DP1.sys DP1.measure DP1.dp1_measure_step
  · exact System.exists_run_to DP1.sys DP1.measure DP1.sys.Reachable DP1.Terminal
      DP1.dp1_measure_step (System.reachable_step DP1.sys) DP1.dp1_enabled_or_terminal _
      DP1.init (le_refl _) ⟨[], rfl⟩

/-- Claim C4 at the schedule `DP1.demoSchedule`, after which philosopher 0 has
taken its right fork once. -/
theorem dp1_deadlock_free_witness :
    DP1.sys.run DP1.init DP1.demoSchedule = some (DP1.sys.after DP1.demoSchedule) ∧
    DP1.demoSchedule.length ≤ 160 ∧
    (DP1.sys.transitions DP1.init DP1.demoSchedule).countP (DP1.tookFork 0 (right 0))
      = ((DP1.sys.after DP1.demoSchedule).ph 0).round
        + DP1.rightDone ((DP1.sys.after DP1.demoSchedule).ph 0).pc ∧
    (DP1.sys.Enabled (DP1.sys.after DP1.demoSchedule) ∨
      (DP1.Terminal (DP1.sys.after DP1.demoSchedule) ∧ DP1.demoSchedule.length = 160 ∧
        ∀ id, ((DP1.sys.after DP1.demoSchedule).ph id).round = 4 ∧
          (DP1.sys.transitions DP1.init DP1.demoSchedule).countP (DP1.tookFork id (left id)) = 4 ∧
          (DP1.sys.transitions DP1.init DP1.demoSchedule).countP (DP1.tookFork id (right id))
            = 4)) :=
  ⟨rfl, (dp1_deadlock_free.1 DP1.demoSchedule _ rfl).1,
   ((dp1_deadlock_free.1 DP1.demoSchedule _ rfl).2.2.1 0).2.2,
   (dp1_deadlock_free.1 DP1.demoSchedule _ rfl).2.2.2.2.2.2⟩

/-- Claim C5 (bounded admission).  In every reachable state of the host
variant at most 4 philosophers hold a fork, the permits of `host` plus the
philosophers between `host.wait()` and `host.signal()` are 4, and every
philosopher holding a fork holds a permit of `host`. -/
theorem dp2_bounded_admission (s : DP2.State) (h : DP2.sys.Reachable s) :
    DP2.holdingCount s ≤ 4 ∧ s.host.sem + DP2.admittedCount s = 4 ∧
    ∀ id, DP2.holdsAny (s.ph id).pc ≤ DP2.admitted (s.ph id).pc := by
  have hp := (DP2.dp2_inv_reachable s h).permits
  have hle : ∀ t : Task DP2.PPc, DP2.holdingW t ≤ DP2.admittedW t := by
    intro t
    rcases t with ⟨pc, r⟩
    cases pc <;> simp [DP2.holdingW, DP2.admittedW, DP2.holdsAny, DP2.admitted, DP2.holdsLeft,
      DP2.holdsRight]
  have hm := count_mono DP2.holdingW DP2.admittedW s.ph hle
  refine ⟨?_, hp, fun id => hle (s.ph id)⟩
  simp only [DP2.holdingCount, DP2.admittedCount] at *
  omega

/-- Claim C5 at the state reached by `DP2.demoSchedule`. -/
theorem dp2_bounded_admission_witness :
    DP2.sys.Reachable (DP2.sys.after DP2.demoSchedule) ∧
    DP2.holdingCount (DP2.sys.after DP2.demoSchedule) ≤ 4 ∧
    (DP2.sys.after DP2.demoSchedule).host.sem
      + DP2.admittedCount (DP2.sys.after DP2.demoSchedule) = 4 :=
  ⟨⟨DP2.demoSchedule, rfl⟩,
   (dp2_bounded_admission _ ⟨DP2.demoSchedule, rfl⟩).1,
   (dp2_bounded_admission _ ⟨DP2.demoSchedule, rfl⟩).2.1⟩

/-- Claim C6 (deadlock freedom, host variant).  Along every execution the steps
taken plus the statements left are 180, every philosopher has taken a permit
of `host`, its left fork and its right fork once per completed round plus
once when it is past that wait in the current round, a philosopher about to
eat holds both forks, and no philosopher has taken its right fork more often
than its left fork, or its left fork more often than a permit of `host`.
Every reachable state has an enabled philosopher or is the terminal state,
which is reached after exactly 180 steps with
every philosopher at the end of its 4th round, having taken `host` and each
of its forks 4 times.  Every step decreases the statements left by one,
there is no infinite execution, and some execution reaches the terminal
state. -/
theorem dp2_deadlock_free :
    (∀ sched s, DP2.sys.run DP2.init sched = some s →
      sched.length ≤ 180 ∧ sched.length + DP2.measure s = 180 ∧
      (∀ id, (s.ph id).round ≤ 4 ∧
        (DP2.sys.transitions DP2.init sched).countP (DP2.tookHost id)
          = (s.ph id).round + DP2.hostDone (s.ph id).pc ∧
        (DP2.sys.transitions DP2.init sched).countP (DP2.tookFork id (left id))
          = (s.ph id).round + DP2.leftDone (s.ph id).pc ∧
        (DP2.sys.transitions DP2.init sched).countP (DP2.tookFork id (right id))
          = (s.ph id).round + DP2.rightDone (s.ph id).pc) ∧
      (∀ id, (s.ph id).pc = DP2.PPc.eat →
        (s.sticks2 (left id)).sem = 0 ∧ (s.sticks2 (right id)).sem = 0) ∧
      (∀ id,
        (DP2.sys.transitions DP2.init sched).countP (DP2.tookFork id (right id))
          ≤ (DP2.sys.transitions DP2.init sched).countP (DP2.tookFork id (left id)) ∧
        (DP2.sys.transitions DP2.init sched).countP (DP2.tookFork id (left id))
          ≤ (DP2.sys.transitions DP2.init sched).countP (DP2.tookHost id)) ∧
      (DP2.sys.Enabled s ∨
        (DP2.Terminal s ∧ sched.length = 180 ∧
          ∀ id, (s.ph id).round = 4 ∧
            (DP2.sys.transitions DP2.init sched).countP (DP2.tookHost id) = 4 ∧
            (DP2.sys.transitions DP2.init sched).countP (DP2.tookFork id (left id)) = 4 ∧
            (DP2.sys.transitions DP2.init sched).countP (DP2.tookFork id (right id)) = 4))) ∧
    (∀ s id s', DP2.philosopher2 s id = some s' → DP2.measure s' + 1 = DP2.measure s) ∧
    (∀ σ : Nat → DP2.State, ¬ ∀ n, ∃ id, DP2.philosopher2 (σ n) id = some (σ (n + 1))) ∧
    (∃ sched s, DP2.sys.run DP2.init sched = some s ∧ DP2.Terminal s) := by
  refine ⟨?_, DP2.dp2_measure_exact, ?_, ?_⟩
  · intro sched s h
    have hh := DP2.dp2_hist_run sched s h
    have hinv := DP2.dp2_inv_reachable s ⟨sched, h⟩
    have hlen := System.run_length_exact DP2.sys DP2.measure DP2.dp2_measure_exact sched
      DP2.init s h
    have e : DP2.measure DP2.init = 180 := by
      simp [DP2.measure, DP2.init, count, DP2.remaining, ROUNDS]
    refine ⟨by omega, by omega,
      fun id => ⟨(hh.rounds id).1, hh.hostTaken id, hh.leftTaken id, hh.rightTaken id⟩,
      fun id he => DP2.dp2_eating s hinv id he, ?_, ?_⟩
    · intro id
      rw [hh.leftTaken id, hh.rightTaken id, hh.hostTaken id]
      cases hpc : (s.ph id).pc <;> simp [DP2.leftDone, DP2.rightDone, DP2.hostDone]
    rcases DP2.dp2_enabled_or_terminal s ⟨sched, h⟩ with ht | he
    · right
      have hm := DP2.dp2_terminal_measure _ s hh ht
      refine ⟨ht, by omega, fun id => ?_⟩
      have hr := (hh.rounds id).2.mp (ht id)
      have h2 := hh.leftTaken id
      have h3 := hh.rightTaken id
      have h4 := hh.hostTaken id
      simp only [ht id, DP2.leftDone, DP2.rightDone, DP2.hostDone, hr, ROUNDS] at h2 h3 h4
      exact ⟨hr, h4, h2, h3⟩
    · exact Or.inl he
  · exact System.no_infinite_run DP2.sys DP2.measure DP2.dp2_measure_step
  · exact System.exists_run_to DP2.sys DP2.measure DP2.sys.Reachable DP2.Terminal
      DP2.dp2_measure_step (System.reachable_step DP2.sys) DP2.dp2_enabled_or_terminal _
      DP2.init (le_refl _) ⟨[], rfl⟩

/-- Claim C6 at the schedule `DP2.demoSchedule`, after which philosopher 0 has
taken its left fork once. -/
theorem dp2_deadlock_free_witness :
    DP2.sys.run DP2.init DP2.demoSchedule = some (DP2.sys.after DP2.demoSchedule) ∧
    DP2.demoSchedule.length ≤ 180 ∧
    (DP2.sys.transitions DP2.init DP2.demoSchedule).countP (DP2.tookFork 0 (left 0))
      = ((DP2.sys.after DP2.demoSchedule).ph 0).round
        + DP2.leftDone ((DP2.sys.after DP2.demoSchedule).ph 0).pc ∧
    (DP2.sys.Enabled (DP2.sys.after DP2.demoSchedule) ∨
      (DP2.Terminal (DP2.sys.after DP2.demoSchedule) ∧ DP2.demoSchedule.length = 180 ∧
        ∀ id, ((DP2.sys.after DP2.demoSchedule).ph id).round = 4 ∧
          (DP2.sys.transitions DP2.init DP2.demoSchedule).countP (DP2.tookHost id) = 4 ∧
          (DP2.sys.transitions DP2.init DP2.demoSchedule).countP (DP2.tookFork id (left id)) = 4 ∧
          (DP2.sys.transitions DP2.init DP2.demoSchedule).countP (DP2.tookFork id (right id))
            = 4)) :=
  ⟨rfl, (dp2_deadlock_free.1 DP2.demoSchedule _ rfl).1,
   ((dp2_deadlock_free.1 DP2.demoSchedule _ rfl).2.2.1 0).2.2.1,
   (dp2_deadlock_free.1 DP2.demoSchedule _ rfl).2.2.2.2.2⟩

/-- Claim C7 (round completion, variant 1).  Every execution of the 5 readers
and 5 writers of `run_readers_writers_nostarve` has at most 280 steps, there
is no infinite execution, and some execution reaches the state in which all
10 threads have exited.  Along every execution each writer has taken the
permit of `resource1` once per completed round plus once when it is in its
writing region; a writer in its writing region holds the only permit, alone
and with no reader reading, and a reader about to print finds `resource1`
taken and no writer writing.  A reachable state either has an enabled thread
or is the terminal state, and then every thread is at the end of its 4th
round, every writer has taken `resource1` exactly 4 times, and the output
holds exactly 20 lines `Reader <id> reading`, 4 for each id 1..5, and exactly
20 lines `Writer <id> writing`, 4 for each id 1..5. -/
theorem rw1_round_completion :
    (∀ sched s, RW1.sys.run RW1.init sched = some s →
      sched.length ≤ 280 ∧
      (∀ i, (s.wr i).round ≤ 4 ∧
        (RW1.sys.transitions RW1.init sched).countP (RW1.tookResource i)
          = (s.wr i).round + RW1.inWriting (s.wr i).pc) ∧
      (∀ i, RW1.inWriting (s.wr i).pc = 1 →
        s.resource1.sem = 0 ∧ RW1.writing s = 1 ∧ RW1.readingNow s = 0) ∧
      (∀ i, (s.rd i).pc = RW1.RPc.reading → s.resource1.sem = 0 ∧ RW1.writing s = 0) ∧
      (RW1.sys.Enabled s ∨
        (RW1.Terminal s ∧
          s.out.countP Event.isReading = 20 ∧ s.out.countP Event.isWriting = 20 ∧
          ∀ i : Fin 5, s.out.count (Event.reading (i.val + 1)) = 4 ∧
            s.out.count (Event.writing (i.val + 1)) = 4 ∧
            (s.rd i).round = 4 ∧ (s.wr i).round = 4 ∧
            (RW1.sys.transitions RW1.init sched).countP (RW1.tookResource i) = 4))) ∧
    (∀ σ : Nat → RW1.State, ¬ ∀ n, ∃ t, RW1.step (σ n) t = some (σ (n + 1))) ∧
    (∃ sched s, RW1.sys.run RW1.init sched = some s ∧ RW1.Terminal s) := by
  refine ⟨?_, ?_, ?_⟩
  · intro sched s h
    have hh := RW1.rw1_hist_run sched s h
    have hinv := RW1.rw1_inv_reachable s ⟨sched, h⟩
    have hlog := RW1.rw1_log_reachable s ⟨sched, h⟩
    refine ⟨?_, fun i => ⟨(hlog.wrRound i).1, hh.taken i⟩,
      fun i hi => RW1.rw1_writing_exclusive s hinv i hi,
      fun i hi => RW1.rw1_reading_shared s hinv i hi, ?_⟩
    · have := System.run_length RW1.sys RW1.measure RW1.rw1_measure_step sched RW1.init s h
      have e : RW1.measure RW1.init = 280 := by
        simp [RW1.measure, RW1.init, count, RW1.remainingR, RW1.remainingW, ROUNDS]
      omega
    · rcases RW1.rw1_enabled_or_terminal s ⟨sched, h⟩ with ht | he
      · obtain ⟨l1, l2, l3⟩ := RW1.rw1_terminal_lines s hlog ht
        refine Or.inr ⟨ht, l1, l2, fun i => ?_⟩
        have r1 := (hlog.rdRound i).2.mp (ht.1 i)
        have r2 := (hlog.wrRound i).2.mp (ht.2 i)
        have r3 := hh.taken i
        simp only [ht.2 i, RW1.inWriting, r2, ROUNDS] at r3
        exact ⟨(l3 i).1, (l3 i).2, r1, r2, r3⟩
      · exact Or.inl he
  · exact System.no_infinite_run RW1.sys RW1.measure RW1.rw1_measure_step
  · exact System.exists_run_to RW1.sys RW1.measure RW1.sys.Reachable RW1.Terminal
      RW1.rw1_measure_step (System.reachable_step RW1.sys) RW1.rw1_enabled_or_terminal _
      RW1.init (le_refl _) ⟨[], rfl⟩

/-- Claim C7 at the schedule `RW1.demoSchedule`, after which writer 1 has taken
`resource1` once and is in its writing region. -/
theorem rw1_round_completion_witness :
    RW1.sys.run RW1.init RW1.demoSchedule = some (RW1.sys.after RW1.demoSchedule) ∧
    RW1.demoSchedule.length ≤ 280 ∧
    (RW1.sys.transitions RW1.init RW1.demoSchedule).countP (RW1.tookResource 0)
      = ((RW1.sys.after RW1.demoSchedule).wr 0).round
        + RW1.inWriting ((RW1.sys.after RW1.demoSchedule).wr 0).pc ∧
    (RW1.inWriting ((RW1.sys.after RW1.demoSchedule).wr 0).pc = 1 ∧
      (RW1.sys.after RW1.demoSchedule).resource1.sem = 0 ∧
      RW1.writing (RW1.sys.after RW1.demoSchedule) = 1 ∧
      RW1.readingNow (RW1.sys.after RW1.demoSchedule) = 0) :=
  ⟨rfl, (rw1_round_completion.1 RW1.demoSchedule _ rfl).1,
   ((rw1_round_completion.1 RW1.demoSchedule _ rfl).2.1 0).2,
   by decide, (rw1_round_completion.1 RW1.demoSchedule _ rfl).2.2.1 0 (by decide)⟩

/-- Claim C8 (dispatcher).  For every argument vector, `main` returns 1 without
calling a runner exactly when the argument count is not 2 or the integer
parsed from the selector is outside 1..4; with two arguments and selector
value 1, 2, 3 or 4 it calls exactly the matching runner and ends in
`pthread_exit` without returning; in every case it either returns 1 having
called no runner or does not return having called one runner.  With no
argument and with selector "5" it returns 1 and calls no runner; selectors
"1" to "4" start the four runners. -/
theorem main_dispatch :
    (∀ (parse : String → Int) (argv : List String),
      (((main parse argv).ret = some 1 ∧ (main parse argv).called = []) ↔
        (argv.length ≠ 2 ∨ ¬ (1 ≤ parse (argv.getD 1 "") ∧ parse (argv.getD 1 "") ≤ 4))) ∧
      (argv.length = 2 → parse (argv.getD 1 "") = 1 →
        (main parse argv).called = [Runner.run_readers_writers_nostarve] ∧
        (main parse argv).ret = none) ∧
      (argv.length = 2 → parse (argv.getD 1 "") = 2 →
        (main parse argv).called = [Runner.run_rw_writer_priority] ∧
        (main parse argv).ret = none) ∧
      (argv.length = 2 → parse (argv.getD 1 "") = 3 →
        (main parse argv).called = [Runner.run_dining_phil_asym] ∧
        (main parse argv).ret = none) ∧
      (argv.length = 2 → parse (argv.getD 1 "") = 4 →
        (main parse argv).called = [Runner.run_dining_phil_host] ∧
        (main parse argv).ret = none) ∧
      (((main parse argv).ret = some 1 ∧ (main parse argv).called = []) ∨
        ((main parse argv).ret = none ∧ (main parse argv).called.length = 1))) ∧
    ((main atoi ["./main"]).ret = some 1 ∧ (main atoi ["./main"]).called = []) ∧
    ((main atoi ["./main", "5"]).ret = some 1 ∧ (main atoi ["./main", "5"]).called = []) ∧
    ((main atoi ["./main", "1"]).ret = none ∧
      (main atoi ["./main", "1"]).called = [Runner.run_readers_writers_nostarve]) ∧
    ((main atoi ["./main", "2"]).ret = none ∧
      (main atoi ["./main", "2"]).called = [Runner.run_rw_writer_priority]) ∧
    ((main atoi ["./main", "3"]).ret = none ∧
      (main atoi ["./main", "3"]).called = [Runner.run_dining_phil_asym]) ∧
    ((main atoi ["./main", "4"]).ret = none ∧
      (main atoi ["./main", "4"]).called = [Runner.run_dining_phil_host]) := by
  refine ⟨?_, ?_, ?_, ?_, ?_, ?_, ?_⟩
  · intro parse argv
    unfold main
    generalize parse (argv.getD 1 "") = c
    by_cases hlen : argv.length = 2
    · simp only [hlen, ne_eq, not_true_eq_false, if_false, false_or, forall_const]
      split_ifs with h1 h2 h3 h4
      · simp [h1]
      · simp [h2]
      · simp [h3]
      · simp [h4]
      · have hc : ¬ (1 ≤ c ∧ c ≤ 4) := by omega
        simp [h1, h2, h3, h4, hc]
    · simp [hlen]
  · decide
  · decide
  · decide
  · decide
  · decide
  · decide

/-- Claim C9 fails as stated.  After `RW2.queueSchedule` (reader 1 has passed
the gate) `try_read` has no permit and the four other readers are all
positioned at `try_read.wait()`. -/
theorem gate_queue_counterexample :
    RW2.sys.run RW2.init RW2.queueSchedule = some (RW2.sys.after RW2.queueSchedule) ∧
    (RW2.sys.after RW2.queueSchedule).try_read.sem = 0 ∧
    occ (RW2.sys.after RW2.queueSchedule).rd RW2.RPc.lockGate = 4 := by
  refine ⟨rfl, ?_, ?_⟩ <;> decide

/-- Claim C9, amended.  In every reachable state of variant 2 at most one
reader holds the admission gate (is past its `try_read.wait()` and before
its `try_read.signal()`), and then `try_read` has no permit. -/
theorem gate_holder_bound (s : RW2.State) (h : RW2.sys.Reachable s) :
    RW2.gated s + s.try_read.sem ≤ 1 := by
  obtain ⟨h1, h2, h3, h4, h5, h6, h7, h8, h9, h10, h11, h12, h13, h14⟩ :=
    RW2.rw2_inv_reachable s h
  clear h1 h3 h5 h6 h7 h8 h9 h10 h11
  omega

/-- Claim C9, amended, at the state reached by `RW2.queueSchedule`. -/
theorem gate_holder_bound_witness :
    RW2.sys.Reachable (RW2.sys.after RW2.queueSchedule) ∧
    RW2.gated (RW2.sys.after RW2.queueSchedule)
      + (RW2.sys.after RW2.queueSchedule).try_read.sem ≤ 1 :=
  ⟨⟨RW2.queueSchedule, rfl⟩, gate_holder_bound _ ⟨RW2.queueSchedule, rfl⟩⟩

/-- Claim C10 (progress, writer priority).  Every execution of variant 2 has
at most 520 steps, there is no infinite execution and some execution reaches
the terminal state.  Along every execution each writer has taken the permit
of `resource2` once per completed turn plus once when it is past
`resource2.wait()` in the current turn, and a writer in its writing region
holds the only permit, alone and with no reader reading.  A reachable state
either has an enabled thread or is the terminal state, and then every reader
and writer is at the end of its 4th round and has printed its line exactly 4
times, every writer has taken `resource2` exactly 4 times, `readers2` and
`writers2` are 0 and the four semaphores hold 1 permit each. -/
theorem rw2_progress :
    (∀ sched s, RW2.sys.run RW2.init sched = some s →
      sched.length ≤ 520 ∧
      (∀ i, (s.wr i).round ≤ 4 ∧
        (RW2.sys.transitions RW2.init sched).countP (RW2.tookResource i)
          = (s.wr i).round + RW2.lockDone (s.wr i).pc) ∧
      (∀ i, RW2.inWriting (s.wr i).pc = 1 →
        s.resource2.sem = 0 ∧ RW2.writing s = 1 ∧ RW2.readingNow s = 0) ∧
      (RW2.sys.Enabled s ∨
        (RW2.Terminal s ∧
          (∀ i : Fin 5, (s.rd i).round = 4 ∧ (s.wr i).round = 4 ∧
            s.out.count (Event.reading (i.val + 1)) = 4 ∧
            s.out.count (Event.writing (i.val + 1)) = 4 ∧
            (RW2.sys.transitions RW2.init sched).countP (RW2.tookResource i) = 4) ∧
          s.readers2 = 0 ∧ s.writers2 = 0 ∧ s.r_mutex2.sem = 1 ∧ s.w_mutex2.sem = 1 ∧
          s.try_read.sem = 1 ∧ s.resource2.sem = 1))) ∧
    (∀ σ : Nat → RW2.State, ¬ ∀ n, ∃ t, RW2.step (σ n) t = some (σ (n + 1))) ∧
    (∃ sched s, RW2.sys.run RW2.init sched = some s ∧ RW2.Terminal s) := by
  refine ⟨?_, ?_, ?_⟩
  · intro sched s h
    have hinv := RW2.rw2_inv_reachable s ⟨sched, h⟩
    have hlog := RW2.rw2_log_reachable s ⟨sched, h⟩
    have hh := RW2.rw2_hist_run sched s h
    refine ⟨?_, fun i => ⟨(hlog.wrRound i).1, hh.taken i⟩,
      fun i hi => RW2.rw2_writing_exclusive s hinv i hi, ?_⟩
    · have := System.run_length RW2.sys RW2.measure RW2.rw2_measure_step sched RW2.init s h
      have e : RW2.measure RW2.init = 520 := by
        simp [RW2.measure, RW2.init, count, RW2.remainingR, RW2.remainingW, ROUNDS]
      omega
    · rcases RW2.rw2_enabled_or_terminal s ⟨sched, h⟩ with ht | he
      · obtain ⟨_, _, l3⟩ := RW2.rw2_terminal_lines s hlog ht
        refine Or.inr ⟨ht, fun i => ?_, RW2.rw2_terminal_state s hinv ht⟩
        have r1 := (hlog.rdRound i).2.mp (ht.1 i)
        have r2 := (hlog.wrRound i).2.mp (ht.2 i)
        have r3 := hh.taken i
        simp only [ht.2 i, RW2.lockDone, r2, ROUNDS] at r3
        exact ⟨r1, r2, (l3 i).1, (l3 i).2, r3⟩
      · exact Or.inl he
  · exact System.no_infinite_run RW2.sys RW2.measure RW2.rw2_measure_step
  · exact System.exists_run_to RW2.sys RW2.measure RW2.sys.Reachable RW2.Terminal
      RW2.rw2_measure_step (System.reachable_step RW2.sys) RW2.rw2_enabled_or_terminal _
      RW2.init (le_refl _) ⟨[], rfl⟩

/-- Claim C10 at the schedule `RW2.writeSchedule`, after which writer 1 has taken
`resource2` once and is in its writing region. -/
theorem rw2_progress_witness :
    RW2.sys.run RW2.init RW2.writeSchedule = some (RW2.sys.after RW2.writeSchedule) ∧
    RW2.writeSchedule.length ≤ 520 ∧
    (RW2.sys.transitions RW2.init RW2.writeSchedule).countP (RW2.tookResource 0)
      = ((RW2.sys.after RW2.writeSchedule).wr 0).round
        + RW2.lockDone ((RW2.sys.after RW2.writeSchedule).wr 0).pc ∧
    (RW2.inWriting ((RW2.sys.after RW2.writeSchedule).wr 0).pc = 1 ∧
      (RW2.sys.after RW2.writeSchedule).resource2.sem = 0 ∧
      RW2.writing (RW2.sys.after RW2.writeSchedule) = 1 ∧
      RW2.readingNow (RW2.sys.after RW2.writeSchedule) = 0) :=
  ⟨rfl, (rw2_progress.1 RW2.writeSchedule _ rfl).1,
   ((rw2_progress.1 RW2.writeSchedule _ rfl).2.1 0).2,
   by decide, (rw2_progress.1 RW2.writeSchedule _ rfl).2.2.1 0 (by decide)⟩

end Sync
